import Mathlib

/-!
Havener: templating, purge and deploy

A shallow embedding of `pkg/havener/exec.go`, `pkg/havener/purge.go` and
`internal/cmd/deploy.go`, followed by the properties established about them.

Go strings are modelled as Lean `String`s (sequences of Unicode code points).
Everything the program asks of the outside world (the `sh -c` subshell, hook
tasks, the Helm client, the Kubernetes client) is an oracle argument.
-/

namespace Havener

/-! ## The part of Go's `regexp` package used by `processShellOperator` -/

/-- Regular expression syntax, restricted to the operators that occur in
`\({2}\s*shell\s*(.+?)\s*\B\){2}`. -/
inductive Regex where
  /-- A literal character, such as `\(` or `s`. -/
  | lit (c : Char)
  /-- The dot: any character except a newline (flag `s` is off). -/
  | anyNotNL
  /-- The class `\s`, which in Go is `[\t\n\f\r ]`. -/
  | space
  /-- The assertion `\B`: not at an ASCII word boundary. -/
  | noWordBoundary
  /-- Concatenation. -/
  | cat (a b : Regex)
  /-- Zero or more repetitions: `r*` when `greedy`, `r*?` otherwise. -/
  | star (r : Regex) (greedy : Bool)
  /-- One or more repetitions: `r+` when `greedy`, `r+?` otherwise. -/
  | plus (r : Regex) (greedy : Bool)
  /-- Counted repetition `r{n}`. -/
  | count (r : Regex) (n : Nat)
  /-- The capturing group `(r)`; the expression has a single group. -/
  | capture (r : Regex)

/-- A thread of the matcher: the character before the cursor, the text after
it, the cursor offset, and the bounds of the capture group once closed. -/
structure MState where
  prev : Option Char
  rest : List Char
  pos : Nat
  cap : Option (Nat × Nat)

/-- Go's `\s` (Perl class): `[\t\n\f\r ]`. -/
def isPerlSpace (c : Char) : Bool :=
  c = '\t' || c = '\n' || c = Char.ofNat 12 || c = '\r' || c = ' '

/-- Go's `\w`: `[0-9A-Za-z_]`. -/
def isWordChar (c : Char) : Bool :=
  ('0' ≤ c && c ≤ '9') || ('A' ≤ c && c ≤ 'Z') || ('a' ≤ c && c ≤ 'z') || c = '_'

/-- Word-character test for a neighbour of the cursor; beyond either end of
the text there is no word character. -/
def isWordAt (c : Option Char) : Bool :=
  match c with
  | some x => isWordChar x
  | none => false

/-- Consume one character satisfying `p`. -/
def stepChar (p : Char → Bool) (k : MState → Option MState) (st : MState) : Option MState :=
  match st.rest with
  | [] => none
  | x :: xs => if p x then k { st with prev := some x, rest := xs, pos := st.pos + 1 } else none

/-- Repetition of `step`, in priority order: a greedy loop prefers one more
iteration, a lazy loop prefers to stop. An iteration must consume input. -/
def starLoop (step : (MState → Option MState) → MState → Option MState) (greedy : Bool)
    (k : MState → Option MState) : Nat → MState → Option MState
  | 0, st => k st
  | fuel + 1, st =>
    let more : Option MState :=
      step (fun st' => if st'.rest.length < st.rest.length then starLoop step greedy k fuel st'
                       else none) st
    if greedy then more <|> k st else k st <|> more

/-- Exactly `n` iterations of `step`. -/
def countLoop (step : (MState → Option MState) → MState → Option MState)
    (k : MState → Option MState) : Nat → MState → Option MState
  | 0 => k
  | n + 1 => step (countLoop step k n)

/-- Backtracking matcher with leftmost-first (Perl, Go) preference: `run r k st`
is the first successful way, in priority order, of matching `r` at `st` and
then continuing with `k`. -/
def Regex.run : Regex → (MState → Option MState) → MState → Option MState
  | .lit c, k, st => stepChar (fun x => x = c) k st
  | .anyNotNL, k, st => stepChar (fun x => x != '\n') k st
  | .space, k, st => stepChar isPerlSpace k st
  | .noWordBoundary, k, st =>
    if isWordAt st.prev = isWordAt st.rest.head? then k st else none
  | .cat a b, k, st => a.run (b.run k) st
  | .star r greedy, k, st => starLoop r.run greedy k st.rest.length st
  | .plus r greedy, k, st =>
    r.run (fun st' => starLoop r.run greedy k st'.rest.length st') st
  | .count r n, k, st => countLoop r.run k n st
  | .capture r, k, st => r.run (fun st' => k { st' with cap := some (st.pos, st'.pos) }) st

/-- A literal string as a regular expression. -/
def Regex.ofString : List Char → Regex → Regex
  | [], tail => tail
  | c :: cs, tail => .cat (.lit c) (Regex.ofString cs tail)

/-- The expression compiled in `processShellOperator`:
`\({2}\s*shell\s*(.+?)\s*\B\){2}`. -/
def shellRegexp : Regex :=
  .cat (.count (.lit '(') 2)
    (.cat (.star .space true)
      (Regex.ofString "shell".toList
        (.cat (.star .space true)
          (.cat (.capture (.plus .anyNotNL false))
            (.cat (.star .space true)
              (.cat .noWordBoundary (.count (.lit ')') 2)))))))

/-- One element of the result of `FindAllStringSubmatch`: `full` is `match[0]`
(the whole match) and `cmd` is `match[1]` (the capture group). -/
structure Submatch where
  full : String
  cmd : String
  deriving DecidableEq, Repr

/-- The submatch delivered for a match found at offset `pos`, where the text
from there on is `rest` and the matcher stopped in state `fin`. A group that
took no part in the match yields the empty string. -/
def submatchOf (rest : List Char) (pos : Nat) (fin : MState) : Submatch where
  full := String.mk (rest.take (fin.pos - pos))
  cmd :=
    match fin.cap with
    | some (a, b) => String.mk ((rest.drop (a - pos)).take (b - a))
    | none => ""

/-- The loop of `allMatches`: successive non-overlapping matches, each the
leftmost one at or after the end of the previous match. `prev` is the character
before the cursor, `pos` the offset of the cursor, `skip` the number of
characters of the last match still to be passed over and `prevEnd` the end of
the previous match: an empty match right after a previous match is ignored. -/
def findAllFrom (re : Regex) :
    Option Char → List Char → Nat → Nat → Option Nat → List Submatch
  | prev, [], pos, _, prevEnd =>
    match re.run some { prev := prev, rest := [], pos := pos, cap := none } with
    | some fin => if prevEnd = some pos then [] else [submatchOf [] pos fin]
    | none => []
  | _, c :: cs, pos, skip + 1, prevEnd => findAllFrom re (some c) cs (pos + 1) skip prevEnd
  | prev, c :: cs, pos, 0, prevEnd =>
    match re.run some { prev := prev, rest := c :: cs, pos := pos, cap := none } with
    | some fin =>
      if fin.pos = pos then
        if prevEnd = some pos then findAllFrom re (some c) cs (pos + 1) 0 prevEnd
        else submatchOf (c :: cs) pos fin :: findAllFrom re (some c) cs (pos + 1) 0 (some pos)
      else
        submatchOf (c :: cs) pos fin ::
          findAllFrom re (some c) cs (pos + 1) (fin.pos - pos - 1) (some fin.pos)
    | none => findAllFrom re (some c) cs (pos + 1) 0 prevEnd

/-- The method `FindAllStringSubmatch(s, -1)`. -/
def FindAllStringSubmatch (re : Regex) (s : String) : List Submatch :=
  findAllFrom re none s.toList 0 0 none

/-! ## `strings.TrimSpace` and `strings.Replace` -/

/-- Go's `unicode.IsSpace`: the Latin-1 spaces `\t \n \v \f \r`, space, U+0085
and U+00A0, and the other code points with the White_Space property. -/
def isSpace (c : Char) : Bool :=
  let n := c.toNat
  (9 ≤ n && n ≤ 13) || n = 32 || n = 0x85 || n = 0xA0 || n = 0x1680 ||
  (0x2000 ≤ n && n ≤ 0x200A) || n = 0x2028 || n = 0x2029 || n = 0x202F ||
  n = 0x205F || n = 0x3000

/-- Drop the leading white space of a text. -/
def trimLeft : List Char → List Char
  | [] => []
  | c :: cs => if isSpace c then trimLeft cs else c :: cs

/-- The function `strings.TrimSpace`: remove leading and trailing white space. -/
def TrimSpace (s : String) : String :=
  String.mk (trimLeft (trimLeft s.toList).reverse).reverse

/-- Left-to-right replacement of the non-overlapping occurrences of a
non-empty `old`; `skip` counts the characters of the occurrence just replaced
that are still to be passed over. -/
def replaceFrom (old new : List Char) : List Char → Nat → List Char
  | [], _ => []
  | _ :: cs, skip + 1 => replaceFrom old new cs skip
  | c :: cs, 0 =>
    if old.isPrefixOf (c :: cs) then new ++ replaceFrom old new cs (old.length - 1)
    else c :: replaceFrom old new cs 0

/-- The function `strings.Replace(s, old, new, -1)`: every non-overlapping
occurrence of `old` replaced by `new`; an empty `old` matches before every
character and at the end. -/
def Replace (s old new : String) : String :=
  if old.toList = [] then
    String.mk (new.toList ++ s.toList.flatMap (fun c => c :: new.toList))
  else String.mk (replaceFrom old.toList new.toList s.toList 0)

/-! ## The outside world of the templating and deploy code -/

/-- Modelled from the spec: the hook task type of package `havener`, declared
outside the files at hand; "a named shell command executed as a lifecycle hook". -/
structure Task where
  name : String
  cmd : String
  deriving DecidableEq, Repr

/-- A call made to the outside world together with whether it succeeded, in
the order the program makes the calls. -/
inductive Event where
  /-- The call `exec.Command("sh", "-c", cmd).Run()`. -/
  | shell (cmd : String) (ok : Bool)
  /-- The call `ioutil.ReadFile(path)`. -/
  | readFile (path : String) (ok : Bool)
  /-- The call `processTask(title, tasks)`. -/
  | task (title : String) (tasks : List Task) (ok : Bool)
  /-- The call `yaml.Marshal(overrides)`. -/
  | marshal (ok : Bool)
  /-- The call `havener.DeployHelmRelease(name, namespace, location, timeout, overrides)`. -/
  | deploy (name ns location : String) (timeout : Int) (overrides : String) (ok : Bool)
  /-- The call `havener.RunHelmBinary(args...)`. -/
  | helm (args : List String) (ok : Bool)
  /-- The call `printStatusMessage(head, message, colour)`. -/
  | status (head message : String)
  deriving DecidableEq, Repr

/-- Whether the recorded call failed. -/
def Event.failed : Event → Bool
  | .shell _ ok => !ok
  | .readFile _ ok => !ok
  | .task _ _ ok => !ok
  | .marshal ok => !ok
  | .deploy _ _ _ _ _ ok => !ok
  | .helm _ ok => !ok
  | .status _ _ => false

/-! ## The configuration tree (`interface{}` as decoded by yaml.v2) -/

/-- A scalar that is not a string: the `default` branch of the type switch. -/
inductive Prim where
  | bool (b : Bool)
  | int (i : Int)
  | float (bits : Nat)
  deriving DecidableEq, Repr

/-- A key of a `map[interface{}]interface{}` that the assignment `obj[key] = v`
finds again: a string, a boolean, an integer, a float64 other than NaN (a
rational number or an infinity) or `nil`. The float64 NaN, which equals no key,
itself included, is not among them; it is kept apart in `MapKey`. -/
inductive Key where
  | str (s : String)
  | bool (b : Bool)
  | int (i : Int)
  | float (value : ℚ)
  | inf (negative : Bool)
  | null
  deriving DecidableEq, Repr

/-- A value of type `interface{}` in a decoded YAML document, none of whose
mappings has the key NaN. A mapping is the list of its entries, with distinct
keys, in the order the `range` loop visits them; Go leaves that order
unspecified, and a statement about all nodes covers every order. -/
inductive Node where
  /-- A `map[interface{}]interface{}`. -/
  | mapping (entries : List (Key × Node))
  /-- A `[]interface{}`. -/
  | sequence (items : List Node)
  /-- A `string`. -/
  | str (s : String)
  /-- Any other scalar. -/
  | prim (p : Prim)
  /-- The `nil` interface value. -/
  | null
  deriving Repr

/-- The subshell: given the calls made so far and a command line, the outcome
of `cmd.Run()` with standard output captured: `Except.ok out` when the command
exits zero, `Except.error msg` (with `msg` the text of `err.Error()`) otherwise. -/
abbrev Shell := List Event → String → Except String String

/-- The statement `fmt.Errorf("failed to run command: %s\nerror message: %s", ...)`. -/
def shellError (cmd msg : String) : String :=
  "failed to run command: " ++ cmd ++ "\nerror message: " ++ msg

/-- The loop over `matches` in `processShellOperator`: `s` is the text as
rewritten so far, `tr` the calls made so far. -/
def processMatches (sh : Shell) : List Submatch → String → List Event →
    (String × Option String) × List Event
  | [], s, tr => ((s, none), tr)
  | m :: ms, s, tr =>
    match sh tr m.cmd with
    | .error e => (("", some (shellError m.cmd e)), tr ++ [.shell m.cmd false])
    | .ok out =>
      processMatches sh ms (Replace s m.full (TrimSpace out)) (tr ++ [.shell m.cmd true])

/-- The function `processShellOperator`: the returned pair is Go's
`(string, error)`, with `none` for a `nil` error. -/
def processShellOperator (sh : Shell) (tr : List Event) (s : String) :
    (String × Option String) × List Event :=
  processMatches sh (FindAllStringSubmatch shellRegexp s) s tr

mutual
/-- The function `TraverseStructureAndProcessShellOperators`: the returned pair
is Go's `(interface{}, error)`; `Node.null` is the `nil` returned with an error.
The Go code rewrites maps and slices in place and returns its argument; here
the rewritten value is returned. -/
def TraverseStructureAndProcessShellOperators (sh : Shell) :
    List Event → Node → (Node × Option String) × List Event
  | tr, .mapping entries =>
    match traverseEntries sh tr entries with
    | (.error err, tr') => ((.null, some err), tr')
    | (.ok entries', tr') => ((.mapping entries', none), tr')
  | tr, .sequence items =>
    match traverseItems sh tr items with
    | (.error err, tr') => ((.null, some err), tr')
    | (.ok items', tr') => ((.sequence items', none), tr')
  | tr, .str s =>
    match processShellOperator sh tr s with
    | ((_, some err), tr') => ((.null, some err), tr')
    | ((s', none), tr') => ((.str s', none), tr')
  | tr, .prim p => ((.prim p, none), tr)
  | tr, .null => ((.mapping [], none), tr)
/-- The loop `for key, value := range obj` over a mapping: the entries after
the loop, or the error that made the function return from inside the loop.
Every key of a `Node` is found again by `obj[key] = ...`, so the assignment
overwrites the value of the entry being visited and creates no entry. -/
def traverseEntries (sh : Shell) :
    List Event → List (Key × Node) → Except String (List (Key × Node)) × List Event
  | tr, [] => (.ok [], tr)
  | tr, (k, v) :: rest =>
    match TraverseStructureAndProcessShellOperators sh tr v with
    | ((_, some err), tr') => (.error err, tr')
    | ((v', none), tr') =>
      match traverseEntries sh tr' rest with
      | (.error err, tr'') => (.error err, tr'')
      | (.ok rest', tr'') => (.ok ((k, v') :: rest'), tr'')
/-- The loop `for idx, value := range obj` over a sequence. -/
def traverseItems (sh : Shell) :
    List Event → List Node → Except String (List Node) × List Event
  | tr, [] => (.ok [], tr)
  | tr, v :: rest =>
    match TraverseStructureAndProcessShellOperators sh tr v with
    | ((_, some err), tr') => (.error err, tr')
    | ((v', none), tr') =>
      match traverseItems sh tr' rest with
      | (.error err, tr'') => (.error err, tr'')
      | (.ok rest', tr'') => (.ok (v' :: rest'), tr'')
end

/-! ## The map assignment `obj[key] = ...` with the key NaN -/

/-- A key as a Go map holds it: a key that is found again, or the float64 NaN. -/
inductive MapKey where
  | key (k : Key)
  | nan
  deriving DecidableEq, Repr

/-- Go's `==` on map keys: NaN equals no key, itself included. -/
def MapKey.equals : MapKey → MapKey → Bool
  | .key a, .key b => a = b
  | _, _ => false

/-- The assignment `obj[key] = value` on a map given by its entries: the value
of the entry with an equal key is overwritten; without such an entry, a new
entry is created. -/
def mapAssign : List (MapKey × Node) → MapKey → Node → List (MapKey × Node)
  | [], key, value => [(key, value)]
  | (k, v) :: rest, key, value =>
    if k.equals key then (k, value) :: rest else (k, v) :: mapAssign rest key value

/-- One iteration of the loop `for key, value := range obj` of
`TraverseStructureAndProcessShellOperators`, for the entry `(key, value)` that
the iteration produces: the map after `obj[key], err = ...`, or the error
returned from inside the loop. -/
def rangeBody (sh : Shell) (tr : List Event) (obj : List (MapKey × Node))
    (entry : MapKey × Node) : Except String (List (MapKey × Node)) × List Event :=
  match TraverseStructureAndProcessShellOperators sh tr entry.2 with
  | ((_, some err), tr') => (.error err, tr')
  | ((v', none), tr') => (.ok (mapAssign obj entry.1 v'), tr')

/-- The loop `for key, value := range obj` when the iteration produces the
entries `produced`, in this order. -/
def rangeLoop (sh : Shell) : List Event → List (MapKey × Node) → List (MapKey × Node) →
    Except String (List (MapKey × Node)) × List Event
  | tr, obj, [] => (.ok obj, tr)
  | tr, obj, entry :: rest =>
    match rangeBody sh tr obj entry with
    | (.error err, tr') => (.error err, tr')
    | (.ok obj', tr') => rangeLoop sh tr' obj' rest

/-- The entries of a mapping of the model, as entries of a Go map. -/
def asMapEntries (entries : List (Key × Node)) : List (MapKey × Node) :=
  entries.map (fun e => (MapKey.key e.1, e.2))

/-! ## `DeployViaHavenerConfig` -/

/-- Modelled from the spec: the type `havener.Release`, declared outside the
files at hand, with the fields `DeployViaHavenerConfig` reads. -/
structure Release where
  ChartName : String
  ChartNamespace : String
  ChartLocation : String
  Overrides : Node
  Before : List Task
  After : List Task

/-- Modelled from the spec: the type `havener.Config`, declared outside the
files at hand: global pre-hooks, releases in declared order, global post-hooks. -/
structure Config where
  Before : List Task
  Releases : List Release
  After : List Task

/-- The type `ErrorWithMsg`: a static context message wrapping an error. -/
structure ErrorWithMsg where
  Msg : String
  Error : String
  deriving DecidableEq, Repr

/-- What `DeployViaHavenerConfig` calls outside itself. Every answer may
depend on the calls made so far. An error is the text of `err.Error()`. -/
structure DeployEnv where
  /-- The subshell used by templating. -/
  sh : Shell
  /-- The setting `viper.GetInt(envVarDeployTimeout)`. -/
  timeoutInMin : Int
  /-- The function `ioutil.ReadFile`. -/
  ReadFile : List Event → String → Except String String
  /-- The function `yaml.Unmarshal` into a `havener.Config`. -/
  Unmarshal : String → Except String Config
  /-- The function `processTask`, declared outside the files at hand. -/
  processTask : List Event → String → List Task → Option String
  /-- The function `yaml.Marshal`. -/
  Marshal : Node → Except String String
  /-- The function `havener.DeployHelmRelease`, the materialization service. -/
  DeployHelmRelease : List Event → String → String → String → Int → String → Option String
  /-- The function `havener.RunHelmBinary`; `Except.ok none` is a `nil` byte slice. -/
  RunHelmBinary : List Event → List String → Except String (Option String)
  /-- The function `bunt.Sprintf` applied to the success format string. -/
  Sprintf : String → String → String

/-- The body of the loop `for _, release := range config.Releases`: `none` when
the iteration runs to its end, the returned error otherwise. The progress
indicator only drives the display and is left out. -/
def deployRelease (env : DeployEnv) (tr : List Event) (release : Release) :
    Option ErrorWithMsg × List Event :=
  match TraverseStructureAndProcessShellOperators env.sh tr release.Overrides with
  | ((_, some err), tr1) => (some ⟨"failed to process overrides section", err⟩, tr1)
  | ((overrides, none), tr1) =>
    let before := "Before Chart " ++ release.ChartName
    match env.processTask tr1 before release.Before with
    | some err =>
      (some ⟨"failed to evaluate before release steps", err⟩,
        tr1 ++ [.task before release.Before false])
    | none =>
      let tr2 := tr1 ++ [.task before release.Before true]
      match env.Marshal overrides with
      | .error err =>
        (some ⟨"failed to marshal overrides structure into bytes", err⟩, tr2 ++ [.marshal false])
      | .ok overridesData =>
        let tr3 := tr2 ++ [.marshal true]
        let call (ok : Bool) : Event :=
          .deploy release.ChartName release.ChartNamespace release.ChartLocation
            env.timeoutInMin overridesData ok
        match env.DeployHelmRelease tr3 release.ChartName release.ChartNamespace
            release.ChartLocation env.timeoutInMin overridesData with
        | some err =>
          (some ⟨"failed to deploy via havener configuration", err⟩, tr3 ++ [call false])
        | none =>
          let tr4 := tr3 ++ [call true]
          let message := env.Sprintf release.ChartName release.ChartNamespace
          let args := ["get", "notes", release.ChartName]
          match env.RunHelmBinary tr4 args with
          | .error err =>
            (some ⟨"failed to get notes of release", err⟩, tr4 ++ [.helm args false])
          | .ok releaseNotes =>
            let message :=
              match releaseNotes with
              | some notes => message ++ "\n\n" ++ notes
              | none => message
            let tr5 := tr4 ++ [.helm args true] ++ [.status "Upgrade" message]
            let after := "After Chart " ++ release.ChartName
            match env.processTask tr5 after release.After with
            | some err =>
              (some ⟨"failed to evaluate after release steps", err⟩,
                tr5 ++ [.task after release.After false])
            | none => (none, tr5 ++ [.task after release.After true])

/-- The loop `for _, release := range config.Releases`. -/
def deployReleases (env : DeployEnv) : List Event → List Release →
    Option ErrorWithMsg × List Event
  | tr, [] => (none, tr)
  | tr, release :: rest =>
    match deployRelease env tr release with
    | (some err, tr') => (some err, tr')
    | (none, tr') => deployReleases env tr' rest

/-- Lines 87 to 145 of `DeployViaHavenerConfig`: the pipeline run on a parsed
configuration. -/
def deployConfig (env : DeployEnv) (tr : List Event) (config : Config) :
    Option ErrorWithMsg × List Event :=
  match env.processTask tr "Predeployment Steps" config.Before with
  | some err =>
    (some ⟨"failed to evaluate predeployment steps", err⟩,
      tr ++ [.task "Predeployment Steps" config.Before false])
  | none =>
    match deployReleases env (tr ++ [.task "Predeployment Steps" config.Before true])
        config.Releases with
    | (some err, tr') => (some err, tr')
    | (none, tr') =>
      match env.processTask tr' "Postdeployment Steps" config.After with
      | some err =>
        (some ⟨"failed to evaluate postdeployment steps", err⟩,
          tr' ++ [.task "Postdeployment Steps" config.After false])
      | none => (none, tr' ++ [.task "Postdeployment Steps" config.After true])

/-- The function `DeployViaHavenerConfig`. -/
def DeployViaHavenerConfig (env : DeployEnv) (tr : List Event) (havenerConfig : String) :
    Option ErrorWithMsg × List Event :=
  match env.ReadFile tr havenerConfig with
  | .error err =>
    (some ⟨"unable to read havener configuration", err⟩, tr ++ [.readFile havenerConfig false])
  | .ok cfgdata =>
    match env.Unmarshal cfgdata with
    | .error err =>
      (some ⟨"failed to unmarshal havener configuration", err⟩,
        tr ++ [.readFile havenerConfig true])
    | .ok config => deployConfig env (tr ++ [.readFile havenerConfig true]) config

/-! ## `purge.go`

The purge code runs goroutines against the cluster. Its oracles answer
independently of the calls made before; a goroutine that never finishes never
sends on its result channel. -/

/-- The outcome of a call that may wait for ever. -/
inductive Outcome where
  /-- The call returns, with `none` for a `nil` error. -/
  | returns (err : Option String)
  /-- The call never returns. -/
  | blocks
  deriving DecidableEq, Repr

/-- The response of `helmClient.ReleaseStatus`, as far as the purge reads it. -/
structure StatusResp where
  Name : String
  Namespace : String
  deriving DecidableEq, Repr

/-- The type `watch.EventType`. -/
inductive EventType where
  | Added
  | Modified
  | Deleted
  | Error
  deriving DecidableEq, Repr

/-- A watch: the events its result channel delivers to the `range` loop, in
order, and whether the server closes the channel after the last of them. -/
structure Watch where
  events : List EventType
  closes : Bool
  deriving DecidableEq, Repr

/-- What the purge code calls outside itself. -/
structure PurgeEnv where
  /-- The method `helmClient.ReleaseStatus`. -/
  ReleaseStatus : String → Except String StatusResp
  /-- The function `PromptUser`, declared outside the files at hand. -/
  PromptUser : String → Bool
  /-- The function `ListDeploymentsInNamespace`. -/
  ListDeploymentsInNamespace : String → Except String (List String)
  /-- The call `Deployments(namespace).Delete(name, ...)`. -/
  DeleteDeployment : String → String → Option String
  /-- The function `ListStatefulSetsInNamespace`. -/
  ListStatefulSetsInNamespace : String → Except String (List String)
  /-- The call `StatefulSets(namespace).Delete(name, ...)`. -/
  DeleteStatefulSet : String → String → Option String
  /-- The call `Namespaces().Get(namespace, ...)`, as far as it can fail. -/
  GetNamespace : String → Option String
  /-- The call `Namespaces().Watch(...)` on the single namespace object. -/
  WatchNamespace : String → Except String Watch
  /-- The call `Namespaces().Delete(namespace, ...)`. -/
  DeleteNamespace : String → Option String
  /-- The call `helmClient.DeleteRelease(name, DeletePurge(true), DeleteTimeout(...))`. -/
  DeleteRelease : String → Option String
  /-- The order in which the results of concurrent goroutines, listed in launch
  order, reach the result channel: a permutation chosen by the scheduler. -/
  arrival : List Outcome → List Outcome

/-- The values sent on a result channel: a goroutine that blocks sends nothing. -/
def sent : List Outcome → List (Option String)
  | [] => []
  | .returns err :: rest => err :: sent rest
  | .blocks :: rest => sent rest

/-- The loop `for i := 0; i < n; i++ { if err := <-errors; err != nil { return err } }`
followed by `return nil`, on a channel over which exactly `arrivals` are sent. -/
def joinErrors : Nat → List (Option String) → Outcome
  | 0, _ => .returns none
  | _ + 1, [] => .blocks
  | _ + 1, some err :: _ => .returns (some err)
  | n + 1, none :: rest => joinErrors n rest

/-- The loop `for _, name := range names` deleting one resource after the other. -/
def deleteEach (delete : String → Option String) : List String → Option String
  | [] => none
  | name :: rest =>
    match delete name with
    | some err => some err
    | none => deleteEach delete rest

/-- The function `PurgeDeploymentsInNamespace`. -/
def PurgeDeploymentsInNamespace (env : PurgeEnv) (ns : String) : Option String :=
  match env.ListDeploymentsInNamespace ns with
  | .ok deployments => deleteEach (env.DeleteDeployment ns) deployments
  | .error _ => none

/-- The function `PurgeStatefulSetsInNamespace`. -/
def PurgeStatefulSetsInNamespace (env : PurgeEnv) (ns : String) : Option String :=
  match env.ListStatefulSetsInNamespace ns with
  | .ok statefulsets => deleteEach (env.DeleteStatefulSet ns) statefulsets
  | .error _ => none

/-- The loop `for event := range watcher.ResultChan()` of `PurgeNamespace` and
the `return nil` after it. `stopped` records that `watcher.Stop()` was called,
which closes the channel; otherwise the channel ends only if the server closes it. -/
def watchLoop (ns : String) : Bool → Bool → List EventType → Outcome
  | stopped, closes, [] => if stopped || closes then .returns none else .blocks
  | _, closes, .Deleted :: rest => watchLoop ns true closes rest
  | _, _, .Error :: _ => .returns (some ("failed to delete namespace " ++ ns))
  | stopped, closes, .Added :: rest => watchLoop ns stopped closes rest
  | stopped, closes, .Modified :: rest => watchLoop ns stopped closes rest

/-- The function `PurgeNamespace`. -/
def PurgeNamespace (env : PurgeEnv) (ns : String) : Outcome :=
  match env.GetNamespace ns with
  | some err => .returns (some err)
  | none =>
    match env.WatchNamespace ns with
    | .error err => .returns (some err)
    | .ok watcher =>
      match env.DeleteNamespace ns with
      | some err => .returns (some err)
      | none => watchLoop ns false watcher.closes watcher.events

/-- The function `PurgeHelmRelease`. The join loop runs `for i := 0; i < 4; i++`. -/
def PurgeHelmRelease (env : PurgeEnv) (helmRelease : String) : Outcome :=
  match env.ReleaseStatus helmRelease with
  | .error err => .returns (some err)
  | .ok statusResp =>
    match PurgeDeploymentsInNamespace env statusResp.Namespace with
    | some err => .returns (some err)
    | none =>
      match PurgeStatefulSetsInNamespace env statusResp.Namespace with
      | some err => .returns (some err)
      | none =>
        joinErrors 4 (sent (env.arrival
          [PurgeNamespace env statusResp.Namespace, .returns (env.DeleteRelease helmRelease)]))

/-- What a run of `PurgeHelmReleases` does: the question put to the operator,
the releases for which the loop `for _, name := range toBeDeleted` starts a
purge goroutine, and the outcome of the call. -/
structure PurgeRun where
  prompt : String
  launched : List String
  result : Outcome
  deriving DecidableEq, Repr

/-- The first loop of `PurgeHelmReleases`, filtering out the releases whose
status query fails. -/
def toBeDeleted (env : PurgeEnv) : List String → List String
  | [] => []
  | helmReleaseName :: rest =>
    match env.ReleaseStatus helmReleaseName with
    | .ok statusResp => statusResp.Name :: toBeDeleted env rest
    | .error _ => toBeDeleted env rest

/-- The function `PurgeHelmReleases`. -/
def PurgeHelmReleases (env : PurgeEnv) (helmReleaseNames : List String) : PurgeRun :=
  let names := toBeDeleted env helmReleaseNames
  let prompt := "Are you sure you want to delete the Helm Releases " ++
    ", ".intercalate names ++ "? (yes/no): "
  if env.PromptUser prompt then
    { prompt := prompt
      launched := names
      result := joinErrors names.length (sent (env.arrival (names.map (PurgeHelmRelease env)))) }
  else { prompt := prompt, launched := [], result := .returns none }

/-! ## Vocabulary of the statements about templating -/

mutual
/-- The shape relation of templating: `SameShape sh t u` holds when `u` is `t`
with some string leaves replaced by a result of `processShellOperator` and all
`nil` leaves replaced by an empty mapping. -/
inductive SameShape (sh : Shell) : Node → Node → Prop where
  | mapping {es es' : List (Key × Node)} :
    SameShapeEntries sh es es' → SameShape sh (.mapping es) (.mapping es')
  | sequence {xs xs' : List Node} :
    SameShapeItems sh xs xs' → SameShape sh (.sequence xs) (.sequence xs')
  | str {s s' : String} (tr : List Event) :
    (processShellOperator sh tr s).1 = (s', none) → SameShape sh (.str s) (.str s')
  | prim (p : Prim) : SameShape sh (.prim p) (.prim p)
  | null : SameShape sh .null (.mapping [])
/-- Entry by entry: the same key, values of the same shape. -/
inductive SameShapeEntries (sh : Shell) : List (Key × Node) → List (Key × Node) → Prop where
  | nil : SameShapeEntries sh [] []
  | cons {k : Key} {v v' : Node} {rest rest' : List (Key × Node)} :
    SameShape sh v v' → SameShapeEntries sh rest rest' →
    SameShapeEntries sh ((k, v) :: rest) ((k, v') :: rest')
/-- Item by item, in order: values of the same shape. -/
inductive SameShapeItems (sh : Shell) : List Node → List Node → Prop where
  | nil : SameShapeItems sh [] []
  | cons {v v' : Node} {rest rest' : List Node} :
    SameShape sh v v' → SameShapeItems sh rest rest' →
    SameShapeItems sh (v :: rest) (v' :: rest')
end

mutual
/-- The string leaves of a tree, at any depth (keys are not leaves). -/
def Node.strings : Node → List String
  | .mapping es => entriesStrings es
  | .sequence xs => itemsStrings xs
  | .str s => [s]
  | .prim _ => []
  | .null => []
/-- The string leaves below the values of a mapping. -/
def entriesStrings : List (Key × Node) → List String
  | [] => []
  | (_, v) :: rest => v.strings ++ entriesStrings rest
/-- The string leaves below the items of a sequence. -/
def itemsStrings : List Node → List String
  | [] => []
  | v :: rest => v.strings ++ itemsStrings rest
end

mutual
/-- The tree with every `nil` leaf replaced by an empty mapping. -/
def Node.nullToMapping : Node → Node
  | .mapping es => .mapping (entriesNullToMapping es)
  | .sequence xs => .sequence (itemsNullToMapping xs)
  | .str s => .str s
  | .prim p => .prim p
  | .null => .mapping []
/-- The entries with every `nil` leaf replaced by an empty mapping. -/
def entriesNullToMapping : List (Key × Node) → List (Key × Node)
  | [] => []
  | (k, v) :: rest => (k, v.nullToMapping) :: entriesNullToMapping rest
/-- The items with every `nil` leaf replaced by an empty mapping. -/
def itemsNullToMapping : List Node → List Node
  | [] => []
  | v :: rest => v.nullToMapping :: itemsNullToMapping rest
end

mutual
/-- Whether a tree has a `nil` leaf. -/
def Node.hasNull : Node → Bool
  | .mapping es => entriesHaveNull es
  | .sequence xs => itemsHaveNull xs
  | .str _ => false
  | .prim _ => false
  | .null => true
/-- Whether a value of a mapping has a `nil` leaf. -/
def entriesHaveNull : List (Key × Node) → Bool
  | [] => false
  | (_, v) :: rest => v.hasNull || entriesHaveNull rest
/-- Whether an item of a sequence has a `nil` leaf. -/
def itemsHaveNull : List Node → Bool
  | [] => false
  | v :: rest => v.hasNull || itemsHaveNull rest
end

/-- A string leaf with a matched shell expression whose command exits
non-zero, whatever was run before. -/
def FailingLeaf (sh : Shell) (s : String) : Prop :=
  ∃ m ∈ FindAllStringSubmatch shellRegexp s, ∀ tr : List Event, ∃ e, sh tr m.cmd = .error e

/-- A cursor in a text, as far as matching depends on it: the character
before the cursor and the text after it. -/
abbrev Cursor := Option Char × List Char

/-- What a regular expression can match, without regard to preference:
`Derives r a b` holds when `r` matches the text between the cursors `a` and `b`. -/
inductive Derives : Regex → Cursor → Cursor → Prop where
  | lit (c : Char) (p : Option Char) (xs : List Char) :
    Derives (.lit c) (p, c :: xs) (some c, xs)
  | anyNotNL (x : Char) (p : Option Char) (xs : List Char) :
    (x != '\n') = true → Derives .anyNotNL (p, x :: xs) (some x, xs)
  | space (x : Char) (p : Option Char) (xs : List Char) :
    isPerlSpace x = true → Derives .space (p, x :: xs) (some x, xs)
  | noWordBoundary (p : Option Char) (xs : List Char) :
    isWordAt p = isWordAt xs.head? → Derives .noWordBoundary (p, xs) (p, xs)
  | cat {a b : Regex} {s1 s2 s3 : Cursor} :
    Derives a s1 s2 → Derives b s2 s3 → Derives (.cat a b) s1 s3
  | starNil (r : Regex) (g : Bool) (s : Cursor) : Derives (.star r g) s s
  | starCons {r : Regex} {g : Bool} {s1 s2 s3 : Cursor} :
    Derives r s1 s2 → Derives (.star r g) s2 s3 → Derives (.star r g) s1 s3
  | plus {r : Regex} {g : Bool} {s1 s2 s3 : Cursor} :
    Derives r s1 s2 → Derives (.star r g) s2 s3 → Derives (.plus r g) s1 s3
  | countZero (r : Regex) (s : Cursor) : Derives (.count r 0) s s
  | countSucc {r : Regex} {n : Nat} {s1 s2 s3 : Cursor} :
    Derives r s1 s2 → Derives (.count r n) s2 s3 → Derives (.count r (n + 1)) s1 s3
  | capture {r : Regex} {s1 s2 : Cursor} : Derives r s1 s2 → Derives (.capture r) s1 s2

/-- The character before the cursor after the text `cs` has been passed, when
`p` was the character before the cursor at the start. -/
def lastOr : Option Char → List Char → Option Char
  | p, [] => p
  | _, c :: cs => lastOr (some c) cs

/-- The matcher is sound for `r` when every result it produces goes through a
cursor that `r` derives, at an offset that keeps pace with the text. -/
def Sound (step : (MState → Option MState) → MState → Option MState) (r : Regex) : Prop :=
  ∀ (k : MState → Option MState) (st fin : MState), step k st = some fin →
    ∃ st', Derives r (st.prev, st.rest) (st'.prev, st'.rest) ∧
      st'.pos + st'.rest.length = st.pos + st.rest.length ∧ k st' = some fin

/-- The expression `r` is `tail`, or a concatenation whose right operand ends
with `tail`. -/
inductive EndsWith (tail : Regex) : Regex → Prop where
  | here : EndsWith tail tail
  | cat {a r : Regex} : EndsWith tail r → EndsWith tail (.cat a r)

/-- A matcher step is strict when it can only succeed through its continuation. -/
def Strict (step : (MState → Option MState) → MState → Option MState) : Prop :=
  ∀ st : MState, step (fun _ => none) st = none

/-- The names carried by the status responses of the requests that succeed, in
request order. -/
def respondedNames (env : PurgeEnv) (names : List String) : List String :=
  names.filterMap (fun name =>
    match env.ReleaseStatus name with
    | .ok statusResp => some statusResp.Name
    | .error _ => none)

/-- The status message printed after a release is materialized: the success
line, followed by the release notes when the lookup returned some. -/
def statusText (env : DeployEnv) (r : Release) (notes : Option String) : String :=
  match notes with
  | some text => env.Sprintf r.ChartName r.ChartNamespace ++ "\n\n" ++ text
  | none => env.Sprintf r.ChartName r.ChartNamespace

/-- A stretch of calls all of which succeeded. -/
def AllOk (calls : List Event) : Prop :=
  ∀ c ∈ calls, c.failed = false

/-- A stretch of calls of which the last one failed and no other did. -/
def FailsLast (calls : List Event) : Prop :=
  ∃ init last, calls = init ++ [last] ∧ AllOk init ∧ last.failed = true

/-- The call discipline of a step that starts with the calls `tr` made and ends
with the calls `tr'` made: the step only adds calls; all of them succeeded when
the step succeeds; when it fails, the failed call is the last call made. -/
def TraceOk (tr tr' : List Event) (failed : Bool) : Prop :=
  ∃ calls, tr' = tr ++ calls ∧ (failed = false → AllOk calls) ∧ (failed = true → FailsLast calls)

/-- Simultaneous substitution, the reading of "every occurrence of each
original matched substring replaced by the output of its own command": scanning
left to right, at each position the first pair of `subs` whose left side occurs
there is replaced by its right side, and the scan resumes after the occurrence. -/
def substituteAll (subs : List (List Char × List Char)) : List Char → Nat → List Char
  | [], _ => []
  | _ :: cs, skip + 1 => substituteAll subs cs skip
  | c :: cs, 0 =>
    match subs.find? (fun p => p.1.isPrefixOf (c :: cs)) with
    | some (old, new) => new ++ substituteAll subs cs (old.length - 1)
    | none => c :: substituteAll subs cs 0

/-- The result the specification describes for `processShellOperator(s)` when
the command `c` prints `out c`: the matches are found on the original `s` and
each occurrence of a matched substring is replaced by the trimmed output of
that match's own command. -/
def specProcessShellOperator (out : String → String) (s : String) : String :=
  String.mk (substituteAll
    ((FindAllStringSubmatch shellRegexp s).map
      (fun m => (m.full.toList, (TrimSpace (out m.cmd)).toList)))
    s.toList 0)

/-! ## Concrete inputs used by the witnesses and counterexamples -/

/-- A subshell in which `echo hi` exits zero printing `hi` and a newline, and
every other command exits non-zero. -/
def echoShell : Shell :=
  fun _ cmd => if cmd = "echo hi" then .ok "hi\n" else .error "exit status 1"

/-- A subshell in which the command `a` prints `A` and every other command
prints `X`; all commands exit zero. -/
def letterShell : Shell :=
  fun _ cmd => if cmd = "a" then .ok "A\n" else .ok "X\n"

/-- The output function of `letterShell`. -/
def letterOut (cmd : String) : String :=
  if cmd = "a" then "A\n" else "X\n"

/-- A subshell in which the command `a` prints the text `(( shell b ))` and
every other command prints `B`; all commands exit zero. -/
def quotingShell : Shell :=
  fun _ cmd => if cmd = "a" then .ok "(( shell b ))\n" else .ok "B\n"

/-- The output function of `quotingShell`. -/
def quotingOut (cmd : String) : String :=
  if cmd = "a" then "(( shell b ))\n" else "B\n"

/-- A small overrides tree: a mapping with a sequence holding a shell
expression, a `nil` and a number. -/
def sampleTree : Node :=
  .mapping [(.str "a", .sequence [.str "(( shell echo hi ))", .null, .prim (.int 3)])]

/-- A tree without shell expression and without `nil`. -/
def plainTree : Node :=
  .mapping [(.str "a", .sequence [.str "plain", .prim (.bool true)])]

/-- A tree with a shell expression whose command fails under `echoShell`,
after one whose command succeeds. -/
def failingTree : Node :=
  .sequence [.str "(( shell echo hi ))", .mapping [(.str "k", .str "x (( shell false )) y")]]

/-- A release with empty hook lists and a `nil` overrides section. -/
def plainRelease (name : String) : Release where
  ChartName := name
  ChartNamespace := "ns"
  ChartLocation := "loc"
  Overrides := .null
  Before := []
  After := []

/-- A configuration with the two releases `one` and `two`. -/
def twoReleases : Config where
  Before := []
  Releases := [plainRelease "one", plainRelease "two"]
  After := []

/-- A deploy environment in which the configuration file holds `twoReleases`
and every call succeeds. -/
def okEnv : DeployEnv where
  sh := echoShell
  timeoutInMin := 40
  ReadFile := fun _ _ => .ok "yaml"
  Unmarshal := fun _ => .ok twoReleases
  processTask := fun _ _ _ => none
  Marshal := fun _ => .ok "data"
  DeployHelmRelease := fun _ _ _ _ _ _ => none
  RunHelmBinary := fun _ _ => .ok (some "notes")
  Sprintf := fun name ns => "created " ++ name ++ " in " ++ ns

/-- As `okEnv`, but the materialization of the release `one` fails. -/
def brokenDeployEnv : DeployEnv :=
  { okEnv with
    DeployHelmRelease := fun _ name _ _ _ _ => if name = "one" then some "timed out" else none }

/-- As `okEnv`, but fetching release notes fails. -/
def noNotesEnv : DeployEnv :=
  { okEnv with RunHelmBinary := fun _ _ => .error "exit status 1" }

/-- A cluster in which every release but `B` exists, every call succeeds, the
namespace watch delivers `Modified` then `Deleted`, the operator confirms, and
results reach the channel in launch order. -/
def healthyCluster : PurgeEnv where
  ReleaseStatus := fun name =>
    if name = "B" then .error "release not found" else .ok ⟨name, "ns-" ++ name⟩
  PromptUser := fun _ => true
  ListDeploymentsInNamespace := fun _ => .ok ["web"]
  DeleteDeployment := fun _ _ => none
  ListStatefulSetsInNamespace := fun _ => .ok ["db"]
  DeleteStatefulSet := fun _ _ => none
  GetNamespace := fun _ => none
  WatchNamespace := fun _ => .ok ⟨[.Modified, .Deleted], false⟩
  DeleteNamespace := fun _ => none
  DeleteRelease := fun _ => none
  arrival := fun l => l

/-- As `healthyCluster`, but the server closes the namespace watch after a
`Modified` event, without any `Deleted` event. -/
def closingWatchCluster : PurgeEnv :=
  { healthyCluster with WatchNamespace := fun _ => .ok ⟨[.Modified], true⟩ }

/-- As `healthyCluster`, but every status query succeeds with a response that
carries the name `X`, whatever release was asked for. -/
def renamingCluster : PurgeEnv :=
  { healthyCluster with ReleaseStatus := fun _ => .ok ⟨"X", "ns-X"⟩ }

/-! ## The matcher: lemmas -/

theorem orElse_some {a b : Option MState} {x : MState} (h : (a <|> b) = some x) :
    a = some x ∨ b = some x := by
  cases a with
  | none => exact Or.inr (by simpa using h)
  | some y => exact Or.inl (by simpa using h)

theorem stepChar_sound (p : Char → Bool) (r : Regex)
    (hd : ∀ (x : Char) (q : Option Char) (xs : List Char), p x = true →
      Derives r (q, x :: xs) (some x, xs)) :
    Sound (stepChar p) r := by
  intro k st fin h
  unfold stepChar at h
  cases hrest : st.rest with
  | nil =>
    rw [hrest] at h
    cases h
  | cons x xs =>
    rw [hrest] at h
    dsimp only at h
    by_cases hp : p x = true
    · rw [if_pos hp] at h
      refine ⟨{ st with prev := some x, rest := xs, pos := st.pos + 1 }, hd x st.prev xs hp, ?_, h⟩
      simp only [List.length_cons]
      omega
    · rw [if_neg hp] at h
      cases h

theorem starLoop_sound {step : (MState → Option MState) → MState → Option MState}
    {r : Regex} (hs : Sound step r) (g : Bool) (k : MState → Option MState) :
    ∀ (n : Nat) (st fin : MState), starLoop step g k n st = some fin →
    ∃ st', Derives (.star r g) (st.prev, st.rest) (st'.prev, st'.rest) ∧
      st'.pos + st'.rest.length = st.pos + st.rest.length ∧ k st' = some fin
  | 0, st, fin, h => by
    rw [starLoop] at h
    exact ⟨st, Derives.starNil r g _, rfl, h⟩
  | n + 1, st, fin, h => by
    rw [starLoop] at h
    have hcases : step (fun st' => if st'.rest.length < st.rest.length
        then starLoop step g k n st' else none) st = some fin ∨ k st = some fin := by
      cases g with
      | true =>
        rw [if_pos rfl] at h
        exact orElse_some h
      | false =>
        rw [if_neg (by simp)] at h
        exact (orElse_some h).symm
    rcases hcases with hmore | hstop
    · obtain ⟨st1, hd1, hp1, hk1⟩ := hs _ st fin hmore
      by_cases hlt : st1.rest.length < st.rest.length
      · rw [if_pos hlt] at hk1
        obtain ⟨st2, hd2, hp2, hk2⟩ := starLoop_sound hs g k n st1 fin hk1
        exact ⟨st2, Derives.starCons hd1 hd2, by omega, hk2⟩
      · rw [if_neg hlt] at hk1
        cases hk1
    · exact ⟨st, Derives.starNil r g _, rfl, hstop⟩

theorem countLoop_sound {step : (MState → Option MState) → MState → Option MState}
    {r : Regex} (hs : Sound step r) :
    ∀ (n : Nat) (k : MState → Option MState) (st fin : MState),
    countLoop step k n st = some fin →
    ∃ st', Derives (.count r n) (st.prev, st.rest) (st'.prev, st'.rest) ∧
      st'.pos + st'.rest.length = st.pos + st.rest.length ∧ k st' = some fin
  | 0, k, st, fin, h => by
    rw [countLoop] at h
    exact ⟨st, Derives.countZero r _, rfl, h⟩
  | n + 1, k, st, fin, h => by
    rw [countLoop] at h
    obtain ⟨st1, hd1, hp1, hk1⟩ := hs _ st fin h
    obtain ⟨st2, hd2, hp2, hk2⟩ := countLoop_sound hs n k st1 fin hk1
    exact ⟨st2, Derives.countSucc hd1 hd2, by omega, hk2⟩

/-- Soundness of the matcher: whatever `run` finds is a text the expression
derives. -/
theorem run_sound : ∀ r : Regex, Sound r.run r
  | .lit c => by
    intro k st fin h
    rw [Regex.run] at h
    refine stepChar_sound (fun x => decide (x = c)) (.lit c) ?_ k st fin h
    intro x q xs hx
    have : x = c := by simpa using hx
    subst this
    exact Derives.lit x q xs
  | .anyNotNL => by
    intro k st fin h
    rw [Regex.run] at h
    exact stepChar_sound _ .anyNotNL (fun x q xs hx => Derives.anyNotNL x q xs hx) k st fin h
  | .space => by
    intro k st fin h
    rw [Regex.run] at h
    exact stepChar_sound _ .space (fun x q xs hx => Derives.space x q xs hx) k st fin h
  | .noWordBoundary => by
    intro k st fin h
    rw [Regex.run] at h
    by_cases hb : isWordAt st.prev = isWordAt st.rest.head?
    · rw [if_pos hb] at h
      exact ⟨st, Derives.noWordBoundary _ _ hb, rfl, h⟩
    · rw [if_neg hb] at h
      cases h
  | .cat a b => by
    intro k st fin h
    rw [Regex.run] at h
    obtain ⟨st1, hd1, hp1, hk1⟩ := run_sound a _ st fin h
    obtain ⟨st2, hd2, hp2, hk2⟩ := run_sound b _ st1 fin hk1
    exact ⟨st2, Derives.cat hd1 hd2, by omega, hk2⟩
  | .star r g => by
    intro k st fin h
    rw [Regex.run] at h
    exact starLoop_sound (run_sound r) g k _ st fin h
  | .plus r g => by
    intro k st fin h
    rw [Regex.run] at h
    obtain ⟨st1, hd1, hp1, hk1⟩ := run_sound r _ st fin h
    obtain ⟨st2, hd2, hp2, hk2⟩ := starLoop_sound (run_sound r) g k _ st1 fin hk1
    exact ⟨st2, Derives.plus hd1 hd2, by omega, hk2⟩
  | .count r n => by
    intro k st fin h
    rw [Regex.run] at h
    exact countLoop_sound (run_sound r) n k st fin h
  | .capture r => by
    intro k st fin h
    rw [Regex.run] at h
    obtain ⟨st1, hd1, hp1, hk1⟩ := run_sound r _ st fin h
    exact ⟨{ st1 with cap := some (st.pos, st1.pos) }, Derives.capture hd1, hp1, hk1⟩

theorem lastOr_append : ∀ (a b : List Char) (p : Option Char),
    lastOr p (a ++ b) = lastOr (lastOr p a) b
  | [], _, _ => rfl
  | c :: cs, b, _ => by
    rw [List.cons_append, lastOr, lastOr, lastOr_append cs b]

theorem derives_consumes {r : Regex} {s1 s2 : Cursor} (h : Derives r s1 s2) :
    ∃ cs, s1.2 = cs ++ s2.2 ∧ s2.1 = lastOr s1.1 cs := by
  induction h with
  | lit c p xs => exact ⟨[c], rfl, rfl⟩
  | anyNotNL x p xs _ => exact ⟨[x], rfl, rfl⟩
  | space x p xs _ => exact ⟨[x], rfl, rfl⟩
  | noWordBoundary p xs _ => exact ⟨[], rfl, rfl⟩
  | cat _ _ ih1 ih2 =>
    obtain ⟨c1, h1, q1⟩ := ih1
    obtain ⟨c2, h2, q2⟩ := ih2
    exact ⟨c1 ++ c2, by rw [h1, h2, List.append_assoc], by rw [q2, q1, lastOr_append]⟩
  | starNil r g s => exact ⟨[], rfl, rfl⟩
  | starCons _ _ ih1 ih2 =>
    obtain ⟨c1, h1, q1⟩ := ih1
    obtain ⟨c2, h2, q2⟩ := ih2
    exact ⟨c1 ++ c2, by rw [h1, h2, List.append_assoc], by rw [q2, q1, lastOr_append]⟩
  | plus _ _ ih1 ih2 =>
    obtain ⟨c1, h1, q1⟩ := ih1
    obtain ⟨c2, h2, q2⟩ := ih2
    exact ⟨c1 ++ c2, by rw [h1, h2, List.append_assoc], by rw [q2, q1, lastOr_append]⟩
  | countZero r s => exact ⟨[], rfl, rfl⟩
  | countSucc _ _ ih1 ih2 =>
    obtain ⟨c1, h1, q1⟩ := ih1
    obtain ⟨c2, h2, q2⟩ := ih2
    exact ⟨c1 ++ c2, by rw [h1, h2, List.append_assoc], by rw [q2, q1, lastOr_append]⟩
  | capture _ ih => exact ih

theorem derives_tail {tail r : Regex} (he : EndsWith tail r) :
    ∀ {s1 s2 : Cursor}, Derives r s1 s2 →
    ∃ (sm : Cursor) (cs : List Char), s1.2 = cs ++ sm.2 ∧ sm.1 = lastOr s1.1 cs ∧
      Derives tail sm s2 := by
  induction he with
  | here =>
    intro s1 s2 h
    exact ⟨s1, [], rfl, rfl, h⟩
  | cat _ ih =>
    intro s1 s2 h
    cases h with
    | cat ha hr =>
      obtain ⟨c1, h1, q1⟩ := derives_consumes ha
      obtain ⟨sm, c2, h2, q2, ht⟩ := ih hr
      exact ⟨sm, c1 ++ c2, by rw [h1, h2, List.append_assoc],
        by rw [q2, q1, lastOr_append], ht⟩

theorem derives_two_lits (c : Char) {s1 s2 : Cursor} (h : Derives (.count (.lit c) 2) s1 s2) :
    s1.2 = c :: c :: s2.2 ∧ s2.1 = some c := by
  cases h with
  | countSucc h1 h2 =>
    cases h1 with
    | lit _ p xs =>
      cases h2 with
      | countSucc h3 h4 =>
        cases h3 with
        | lit _ p' xs' =>
          cases h4 with
          | countZero => exact ⟨rfl, rfl⟩

theorem shellRegexp_tail :
    ∃ r, shellRegexp = .cat (.count (.lit '(') 2) r ∧
      EndsWith (.cat .noWordBoundary (.count (.lit ')') 2)) r := by
  refine ⟨_, rfl, ?_⟩
  simp only [String.toList, Regex.ofString]
  repeat first
    | exact EndsWith.here
    | apply EndsWith.cat

/-- Every text the shell-expression pattern derives is `((`, then a text `cs`,
then `))`, where the character right before the closing parentheses is not a
word character. -/
theorem shellRegexp_derives {s1 s2 : Cursor} (h : Derives shellRegexp s1 s2) :
    ∃ cs, s1.2 = '(' :: '(' :: (cs ++ ')' :: ')' :: s2.2) ∧
      isWordAt (lastOr (some '(') cs) = false := by
  obtain ⟨r, hr, he⟩ := shellRegexp_tail
  rw [hr] at h
  cases h with
  | cat hopen hrest =>
    obtain ⟨h1, q1⟩ := derives_two_lits '(' hopen
    obtain ⟨sm, cs, h2, q2, ht⟩ := derives_tail he hrest
    cases ht with
    | cat hb hclose =>
      obtain ⟨h3, _⟩ := derives_two_lits ')' hclose
      cases hb with
      | noWordBoundary p xs hnb =>
        refine ⟨cs, ?_, ?_⟩
        · rw [h1, h2]
          simp only [] at h3
          rw [h3]
        · simp only [] at q2 h3
          rw [q1] at q2
          rw [← q2, hnb, h3]
          rfl

theorem findAllFrom_mem (re : Regex) (m : Submatch) :
    ∀ (rest : List Char) (prev : Option Char) (pos skip : Nat) (prevEnd : Option Nat),
    m ∈ findAllFrom re prev rest pos skip prevEnd →
    ∃ p xs q fin, re.run some { prev := p, rest := xs, pos := q, cap := none } = some fin ∧
      m = submatchOf xs q fin
  | [], prev, pos, skip, prevEnd, h => by
    rw [findAllFrom] at h
    cases hrun : re.run some { prev := prev, rest := [], pos := pos, cap := none } with
    | none =>
      rw [hrun] at h
      cases h
    | some fin =>
      rw [hrun] at h
      dsimp only at h
      split at h
      · cases h
      · rw [List.mem_singleton] at h
        exact ⟨prev, [], pos, fin, hrun, h⟩
  | c :: cs, prev, pos, skip + 1, prevEnd, h => by
    rw [findAllFrom] at h
    exact findAllFrom_mem re m cs (some c) (pos + 1) skip prevEnd h
  | c :: cs, prev, pos, 0, prevEnd, h => by
    rw [findAllFrom] at h
    cases hrun : re.run some { prev := prev, rest := c :: cs, pos := pos, cap := none } with
    | none =>
      rw [hrun] at h
      exact findAllFrom_mem re m cs (some c) (pos + 1) 0 prevEnd h
    | some fin =>
      rw [hrun] at h
      dsimp only at h
      split at h
      · split at h
        · exact findAllFrom_mem re m cs (some c) (pos + 1) 0 prevEnd h
        · rcases List.mem_cons.mp h with h | h
          · exact ⟨prev, c :: cs, pos, fin, hrun, h⟩
          · exact findAllFrom_mem re m cs (some c) (pos + 1) 0 (some pos) h
      · rcases List.mem_cons.mp h with h | h
        · exact ⟨prev, c :: cs, pos, fin, hrun, h⟩
        · exact findAllFrom_mem re m cs (some c) (pos + 1) _ _ h

theorem run_shellRegexp_shape (st fin : MState) (h : shellRegexp.run some st = some fin) :
    ∃ cs, st.rest = '(' :: '(' :: (cs ++ ')' :: ')' :: fin.rest) ∧
      isWordAt (lastOr (some '(') cs) = false ∧ fin.pos = st.pos + (cs.length + 4) := by
  obtain ⟨st', hd, hp, hk⟩ := run_sound shellRegexp some st fin h
  cases hk
  obtain ⟨cs, hcs, hw⟩ := shellRegexp_derives hd
  dsimp only at hcs
  refine ⟨cs, hcs, hw, ?_⟩
  rw [hcs] at hp
  simp only [List.length_cons, List.length_append] at hp
  omega

/-- Every match of the shell-expression pattern is `((`, a text and `))`, and
the character right before the closing parentheses is not a word character. -/
theorem shell_match_shape (s : String) (m : Submatch)
    (hm : m ∈ FindAllStringSubmatch shellRegexp s) :
    ∃ cs, m.full = String.mk ('(' :: '(' :: (cs ++ [')', ')'])) ∧
      isWordAt (lastOr (some '(') cs) = false := by
  obtain ⟨p, xs, q, fin, hrun, hsub⟩ := findAllFrom_mem shellRegexp m _ _ _ _ _ hm
  obtain ⟨cs, hcs, hw, hpos⟩ := run_shellRegexp_shape _ fin hrun
  dsimp only at hcs hpos
  refine ⟨cs, ?_, hw⟩
  rw [hsub, submatchOf, hpos, hcs]
  have hlen : q + (cs.length + 4) - q = (cs ++ [')', ')']).length + 2 := by
    simp only [List.length_append, List.length_cons, List.length_nil]
    omega
  rw [hlen]
  have hsplit : '(' :: '(' :: (cs ++ ')' :: ')' :: fin.rest) =
      ('(' :: '(' :: (cs ++ [')', ')'])) ++ fin.rest := by simp
  rw [hsplit]
  have : (cs ++ [')', ')']).length + 2 = ('(' :: '(' :: (cs ++ [')', ')'])).length := by
    simp only [List.length_cons]
  rw [this, List.take_left]

theorem stepChar_strict (p : Char → Bool) : Strict (stepChar p) := by
  intro st
  unfold stepChar
  cases st.rest with
  | nil => rfl
  | cons x xs =>
    dsimp only
    split <;> rfl

theorem starLoop_strict {step : (MState → Option MState) → MState → Option MState}
    (hs : Strict step) (g : Bool) :
    ∀ (n : Nat) (st : MState), starLoop step g (fun _ => none) n st = none
  | 0, st => by rw [starLoop]
  | n + 1, st => by
    rw [starLoop]
    have hk : (fun st' : MState => if st'.rest.length < st.rest.length
        then starLoop step g (fun _ => none) n st' else none) = fun _ => none := by
      funext st'
      rw [starLoop_strict hs g n st']
      simp
    rw [hk, hs st]
    cases g <;> rfl

theorem countLoop_strict {step : (MState → Option MState) → MState → Option MState}
    (hs : Strict step) : ∀ (n : Nat) (st : MState), countLoop step (fun _ => none) n st = none
  | 0, st => by rw [countLoop]
  | n + 1, st => by
    rw [countLoop]
    have hk : countLoop step (fun _ => none) n = fun _ => none := by
      funext st'
      exact countLoop_strict hs n st'
    rw [hk, hs st]

theorem run_strict : ∀ r : Regex, Strict r.run
  | .lit c => by
    intro st
    rw [Regex.run]
    exact stepChar_strict _ st
  | .anyNotNL => by
    intro st
    rw [Regex.run]
    exact stepChar_strict _ st
  | .space => by
    intro st
    rw [Regex.run]
    exact stepChar_strict _ st
  | .noWordBoundary => by
    intro st
    rw [Regex.run]
    split <;> rfl
  | .cat a b => by
    intro st
    rw [Regex.run]
    have hk : b.run (fun _ => none) = fun _ => none := by
      funext st'
      exact run_strict b st'
    rw [hk, run_strict a st]
  | .star r g => by
    intro st
    rw [Regex.run]
    exact starLoop_strict (run_strict r) g _ st
  | .plus r g => by
    intro st
    rw [Regex.run]
    have hk : (fun st' : MState => starLoop r.run g (fun _ => none) st'.rest.length st') =
        fun _ => none := by
      funext st'
      exact starLoop_strict (run_strict r) g _ st'
    rw [hk, run_strict r st]
  | .count r n => by
    intro st
    rw [Regex.run]
    exact countLoop_strict (run_strict r) n st
  | .capture r => by
    intro st
    rw [Regex.run]
    exact run_strict r st

/-- The bound on the iterations of a repetition is never what stops it: any
two bounds that are at least the length of the remaining text give the same
result. -/
theorem starLoop_fuel {step : (MState → Option MState) → MState → Option MState}
    (hs : Strict step) (g : Bool) (k : MState → Option MState) :
    ∀ (n m : Nat) (st : MState), st.rest.length ≤ n → st.rest.length ≤ m →
    starLoop step g k n st = starLoop step g k m st
  | 0, 0, _, _, _ => rfl
  | 0, m + 1, st, hn, _ => by
    rw [starLoop, starLoop]
    have hk : (fun st' : MState => if st'.rest.length < st.rest.length
        then starLoop step g k m st' else none) = fun _ => none := by
      funext st'
      rw [if_neg (by omega)]
    rw [hk, hs st]
    cases g <;> simp
  | n + 1, 0, st, _, hm => by
    rw [starLoop, starLoop]
    have hk : (fun st' : MState => if st'.rest.length < st.rest.length
        then starLoop step g k n st' else none) = fun _ => none := by
      funext st'
      rw [if_neg (by omega)]
    rw [hk, hs st]
    cases g <;> simp
  | n + 1, m + 1, st, hn, hm => by
    rw [starLoop, starLoop]
    have hk : (fun st' : MState => if st'.rest.length < st.rest.length
        then starLoop step g k n st' else none) =
        fun st' : MState => if st'.rest.length < st.rest.length
          then starLoop step g k m st' else none := by
      funext st'
      by_cases hlt : st'.rest.length < st.rest.length
      · rw [if_pos hlt, if_pos hlt]
        exact starLoop_fuel hs g k n m st' (by omega) (by omega)
      · rw [if_neg hlt, if_neg hlt]
    rw [hk]

/-! ## Templating: lemmas -/

theorem processMatches_nil (sh : Shell) (s : String) (tr : List Event) :
    processMatches sh [] s tr = ((s, none), tr) := rfl

theorem processShellOperator_no_match (sh : Shell) (tr : List Event) (s : String)
    (h : FindAllStringSubmatch shellRegexp s = []) :
    processShellOperator sh tr s = ((s, none), tr) := by
  unfold processShellOperator
  rw [h]
  rfl

mutual
theorem traverse_shape_aux (sh : Shell) : ∀ (t : Node) (tr : List Event),
    (TraverseStructureAndProcessShellOperators sh tr t).1.2 = none →
    SameShape sh t (TraverseStructureAndProcessShellOperators sh tr t).1.1
  | .mapping es, tr, h => by
    have ih := entries_shape_aux sh es tr
    rw [TraverseStructureAndProcessShellOperators] at h ⊢
    cases hres : traverseEntries sh tr es with
    | mk r tr' =>
      rw [hres] at h ih
      cases r with
      | error e => simp at h
      | ok es' => exact SameShape.mapping (ih es' rfl)
  | .sequence xs, tr, h => by
    have ih := items_shape_aux sh xs tr
    rw [TraverseStructureAndProcessShellOperators] at h ⊢
    cases hres : traverseItems sh tr xs with
    | mk r tr' =>
      rw [hres] at h ih
      cases r with
      | error e => simp at h
      | ok xs' => exact SameShape.sequence (ih xs' rfl)
  | .str s, tr, h => by
    rw [TraverseStructureAndProcessShellOperators] at h ⊢
    cases hres : processShellOperator sh tr s with
    | mk r tr' =>
      obtain ⟨s', err⟩ := r
      rw [hres] at h
      cases err with
      | some e => simp at h
      | none => exact SameShape.str tr (by rw [hres])
  | .prim p, tr, _ => by
    rw [TraverseStructureAndProcessShellOperators]
    exact SameShape.prim p
  | .null, tr, _ => by
    rw [TraverseStructureAndProcessShellOperators]
    exact SameShape.null
theorem entries_shape_aux (sh : Shell) : ∀ (es : List (Key × Node)) (tr : List Event)
    (es' : List (Key × Node)), (traverseEntries sh tr es).1 = .ok es' →
    SameShapeEntries sh es es'
  | [], tr, es', h => by
    rw [traverseEntries] at h
    cases h
    exact SameShapeEntries.nil
  | (k, v) :: rest, tr, es', h => by
    have ihv := traverse_shape_aux sh v tr
    rw [traverseEntries] at h
    cases hres : TraverseStructureAndProcessShellOperators sh tr v with
    | mk r tr' =>
      obtain ⟨v', err⟩ := r
      rw [hres] at h ihv
      cases err with
      | some e => simp at h
      | none =>
        have ihr := entries_shape_aux sh rest tr'
        cases hrest : traverseEntries sh tr' rest with
        | mk r' tr'' =>
          rw [hrest] at ihr
          simp only [hrest] at h
          cases r' with
          | error e => simp at h
          | ok rest' =>
            simp at h
            subst h
            exact SameShapeEntries.cons (ihv rfl) (ihr rest' rfl)
theorem items_shape_aux (sh : Shell) : ∀ (xs : List Node) (tr : List Event)
    (xs' : List Node), (traverseItems sh tr xs).1 = .ok xs' →
    SameShapeItems sh xs xs'
  | [], tr, xs', h => by
    rw [traverseItems] at h
    cases h
    exact SameShapeItems.nil
  | v :: rest, tr, xs', h => by
    have ihv := traverse_shape_aux sh v tr
    rw [traverseItems] at h
    cases hres : TraverseStructureAndProcessShellOperators sh tr v with
    | mk r tr' =>
      obtain ⟨v', err⟩ := r
      rw [hres] at h ihv
      cases err with
      | some e => simp at h
      | none =>
        have ihr := items_shape_aux sh rest tr'
        cases hrest : traverseItems sh tr' rest with
        | mk r' tr'' =>
          rw [hrest] at ihr
          simp only [hrest] at h
          cases r' with
          | error e => simp at h
          | ok rest' =>
            simp at h
            subst h
            exact SameShapeItems.cons (ihv rfl) (ihr rest' rfl)
end

theorem SameShapeEntries.keys_eq {sh : Shell} : ∀ {es es' : List (Key × Node)},
    SameShapeEntries sh es es' → es'.map Prod.fst = es.map Prod.fst
  | _, _, .nil => rfl
  | _, _, .cons _ hr => by simp [SameShapeEntries.keys_eq hr]

theorem SameShapeItems.length_eq {sh : Shell} : ∀ {xs xs' : List Node},
    SameShapeItems sh xs xs' → xs'.length = xs.length
  | _, _, .nil => rfl
  | _, _, .cons _ hr => by simp [SameShapeItems.length_eq hr]

mutual
theorem traverse_no_match_aux (sh : Shell) : ∀ (t : Node) (tr : List Event),
    (∀ s ∈ t.strings, FindAllStringSubmatch shellRegexp s = []) →
    TraverseStructureAndProcessShellOperators sh tr t = ((t.nullToMapping, none), tr)
  | .mapping es, tr, h => by
    rw [Node.strings] at h
    rw [TraverseStructureAndProcessShellOperators, entries_no_match_aux sh es tr h,
      Node.nullToMapping]
  | .sequence xs, tr, h => by
    rw [Node.strings] at h
    rw [TraverseStructureAndProcessShellOperators, items_no_match_aux sh xs tr h,
      Node.nullToMapping]
  | .str s, tr, h => by
    rw [Node.strings] at h
    rw [TraverseStructureAndProcessShellOperators,
      processShellOperator_no_match sh tr s (h s (by simp)), Node.nullToMapping]
  | .prim p, tr, _ => by
    rw [TraverseStructureAndProcessShellOperators, Node.nullToMapping]
  | .null, tr, _ => by
    rw [TraverseStructureAndProcessShellOperators, Node.nullToMapping]
theorem entries_no_match_aux (sh : Shell) : ∀ (es : List (Key × Node)) (tr : List Event),
    (∀ s ∈ entriesStrings es, FindAllStringSubmatch shellRegexp s = []) →
    traverseEntries sh tr es = (.ok (entriesNullToMapping es), tr)
  | [], tr, _ => by
    rw [traverseEntries, entriesNullToMapping]
  | (k, v) :: rest, tr, h => by
    rw [entriesStrings] at h
    rw [traverseEntries,
      traverse_no_match_aux sh v tr (fun s hs => h s (List.mem_append_left _ hs))]
    simp only []
    rw [entries_no_match_aux sh rest tr (fun s hs => h s (List.mem_append_right _ hs)),
      entriesNullToMapping]
theorem items_no_match_aux (sh : Shell) : ∀ (xs : List Node) (tr : List Event),
    (∀ s ∈ itemsStrings xs, FindAllStringSubmatch shellRegexp s = []) →
    traverseItems sh tr xs = (.ok (itemsNullToMapping xs), tr)
  | [], tr, _ => by
    rw [traverseItems, itemsNullToMapping]
  | v :: rest, tr, h => by
    rw [itemsStrings] at h
    rw [traverseItems,
      traverse_no_match_aux sh v tr (fun s hs => h s (List.mem_append_left _ hs))]
    simp only []
    rw [items_no_match_aux sh rest tr (fun s hs => h s (List.mem_append_right _ hs)),
      itemsNullToMapping]
end

mutual
theorem nullToMapping_of_no_null : ∀ (t : Node), t.hasNull = false → t.nullToMapping = t
  | .mapping es, h => by
    rw [Node.hasNull] at h
    rw [Node.nullToMapping, entriesNullToMapping_of_no_null es h]
  | .sequence xs, h => by
    rw [Node.hasNull] at h
    rw [Node.nullToMapping, itemsNullToMapping_of_no_null xs h]
  | .str s, _ => by rw [Node.nullToMapping]
  | .prim p, _ => by rw [Node.nullToMapping]
  | .null, h => by simp [Node.hasNull] at h
theorem entriesNullToMapping_of_no_null : ∀ (es : List (Key × Node)),
    entriesHaveNull es = false → entriesNullToMapping es = es
  | [], _ => by rw [entriesNullToMapping]
  | (k, v) :: rest, h => by
    rw [entriesHaveNull, Bool.or_eq_false_iff] at h
    rw [entriesNullToMapping, nullToMapping_of_no_null v h.1,
      entriesNullToMapping_of_no_null rest h.2]
theorem itemsNullToMapping_of_no_null : ∀ (xs : List Node),
    itemsHaveNull xs = false → itemsNullToMapping xs = xs
  | [], _ => by rw [itemsNullToMapping]
  | v :: rest, h => by
    rw [itemsHaveNull, Bool.or_eq_false_iff] at h
    rw [itemsNullToMapping, nullToMapping_of_no_null v h.1,
      itemsNullToMapping_of_no_null rest h.2]
end

theorem processMatches_fails (sh : Shell) : ∀ (ms : List Submatch) (s : String)
    (tr : List Event), (∃ m ∈ ms, ∀ tr : List Event, ∃ e, sh tr m.cmd = .error e) →
    ∃ m ∈ ms, ∃ e tr', sh tr' m.cmd = .error e ∧
      processMatches sh ms s tr = (("", some (shellError m.cmd e)), tr' ++ [.shell m.cmd false])
  | [], _, _, h => by
    obtain ⟨m, hm, _⟩ := h
    cases hm
  | m :: ms, s, tr, h => by
    cases hrun : sh tr m.cmd with
    | error e =>
      refine ⟨m, List.mem_cons_self _ _, e, tr, hrun, ?_⟩
      rw [processMatches, hrun]
    | ok out =>
      obtain ⟨m0, hm0, hfail⟩ := h
      have hmem : m0 ∈ ms := by
        rcases List.mem_cons.mp hm0 with heq | hin
        · subst heq
          obtain ⟨e, he⟩ := hfail tr
          rw [hrun] at he
          cases he
        · exact hin
      obtain ⟨m1, hm1, e, tr', hsh, hres⟩ :=
        processMatches_fails sh ms (Replace s m.full (TrimSpace out))
          (tr ++ [.shell m.cmd true]) ⟨m0, hmem, hfail⟩
      refine ⟨m1, List.mem_cons_of_mem _ hm1, e, tr', hsh, ?_⟩
      rw [processMatches, hrun]
      exact hres

theorem processShellOperator_fails (sh : Shell) (s : String) (tr : List Event)
    (h : FailingLeaf sh s) :
    ∃ m ∈ FindAllStringSubmatch shellRegexp s, ∃ e tr', sh tr' m.cmd = .error e ∧
      processShellOperator sh tr s =
        (("", some (shellError m.cmd e)), tr' ++ [.shell m.cmd false]) :=
  processMatches_fails sh _ s tr h

mutual
theorem traverse_fails_aux (sh : Shell) : ∀ (t : Node) (tr : List Event),
    (∃ s ∈ t.strings, FailingLeaf sh s) →
    ∃ err tr', TraverseStructureAndProcessShellOperators sh tr t = ((.null, some err), tr')
  | .mapping es, tr, h => by
    rw [Node.strings] at h
    obtain ⟨err, tr', hres⟩ := entries_fails_aux sh es tr h
    exact ⟨err, tr', by rw [TraverseStructureAndProcessShellOperators, hres]⟩
  | .sequence xs, tr, h => by
    rw [Node.strings] at h
    obtain ⟨err, tr', hres⟩ := items_fails_aux sh xs tr h
    exact ⟨err, tr', by rw [TraverseStructureAndProcessShellOperators, hres]⟩
  | .str s, tr, h => by
    rw [Node.strings] at h
    obtain ⟨s0, hs0, hfail⟩ := h
    rw [List.mem_singleton] at hs0
    subst hs0
    obtain ⟨m, _, e, tr', _, hres⟩ := processShellOperator_fails sh s0 tr hfail
    exact ⟨_, _, by rw [TraverseStructureAndProcessShellOperators, hres]⟩
  | .prim p, tr, h => by
    rw [Node.strings] at h
    obtain ⟨s0, hs0, _⟩ := h
    cases hs0
  | .null, tr, h => by
    rw [Node.strings] at h
    obtain ⟨s0, hs0, _⟩ := h
    cases hs0
theorem entries_fails_aux (sh : Shell) : ∀ (es : List (Key × Node)) (tr : List Event),
    (∃ s ∈ entriesStrings es, FailingLeaf sh s) →
    ∃ err tr', traverseEntries sh tr es = (.error err, tr')
  | [], tr, h => by
    rw [entriesStrings] at h
    obtain ⟨s0, hs0, _⟩ := h
    cases hs0
  | (k, v) :: rest, tr, h => by
    rw [entriesStrings] at h
    obtain ⟨s0, hs0, hfail⟩ := h
    have ihv := traverse_fails_aux sh v tr
    cases hres : TraverseStructureAndProcessShellOperators sh tr v with
    | mk r tr1 =>
      obtain ⟨v', err⟩ := r
      cases err with
      | some e => exact ⟨e, tr1, by rw [traverseEntries, hres]⟩
      | none =>
        have hrest : s0 ∈ entriesStrings rest := by
          rcases List.mem_append.mp hs0 with hv | hr
          · obtain ⟨e, tr2, he⟩ := ihv ⟨s0, hv, hfail⟩
            rw [hres] at he
            cases he
          · exact hr
        obtain ⟨e, tr2, he⟩ := entries_fails_aux sh rest tr1 ⟨s0, hrest, hfail⟩
        exact ⟨e, tr2, by rw [traverseEntries, hres]; simp only [he]⟩
theorem items_fails_aux (sh : Shell) : ∀ (xs : List Node) (tr : List Event),
    (∃ s ∈ itemsStrings xs, FailingLeaf sh s) →
    ∃ err tr', traverseItems sh tr xs = (.error err, tr')
  | [], tr, h => by
    rw [itemsStrings] at h
    obtain ⟨s0, hs0, _⟩ := h
    cases hs0
  | v :: rest, tr, h => by
    rw [itemsStrings] at h
    obtain ⟨s0, hs0, hfail⟩ := h
    have ihv := traverse_fails_aux sh v tr
    cases hres : TraverseStructureAndProcessShellOperators sh tr v with
    | mk r tr1 =>
      obtain ⟨v', err⟩ := r
      cases err with
      | some e => exact ⟨e, tr1, by rw [traverseItems, hres]⟩
      | none =>
        have hrest : s0 ∈ itemsStrings rest := by
          rcases List.mem_append.mp hs0 with hv | hr
          · obtain ⟨e, tr2, he⟩ := ihv ⟨s0, hv, hfail⟩
            rw [hres] at he
            cases he
          · exact hr
        obtain ⟨e, tr2, he⟩ := items_fails_aux sh rest tr1 ⟨s0, hrest, hfail⟩
        exact ⟨e, tr2, by rw [traverseItems, hres]; simp only [he]⟩
end

theorem processMatches_all_succeed (sh : Shell) (out : String → String) :
    ∀ (ms : List Submatch) (s : String) (tr : List Event),
    (∀ m ∈ ms, ∀ tr : List Event, sh tr m.cmd = .ok (out m.cmd)) →
    processMatches sh ms s tr =
      ((ms.foldl (fun acc m => Replace acc m.full (TrimSpace (out m.cmd))) s, none),
        tr ++ ms.map (fun m => Event.shell m.cmd true))
  | [], s, tr, _ => by simp [processMatches]
  | m :: ms, s, tr, h => by
    rw [processMatches, h m (List.mem_cons_self _ _) tr]
    simp only []
    rw [processMatches_all_succeed sh out ms _ _
      (fun m' hm' => h m' (List.mem_cons_of_mem _ hm'))]
    simp

theorem substituteAll_single (old new : List Char) : ∀ (cs : List Char) (skip : Nat),
    substituteAll [(old, new)] cs skip = replaceFrom old new cs skip
  | [], _ => by rw [substituteAll, replaceFrom]
  | c :: cs, skip + 1 => by
    rw [substituteAll, replaceFrom, substituteAll_single old new cs skip]
  | c :: cs, 0 => by
    rw [substituteAll, replaceFrom]
    by_cases hp : old.isPrefixOf (c :: cs) = true
    · rw [if_pos hp]
      simp only [List.find?, hp]
      rw [substituteAll_single old new cs _]
    · rw [if_neg hp]
      simp only [List.find?, hp]
      rw [substituteAll_single old new cs 0]

theorem Replace_nonempty (s old new : String) (h : old.toList ≠ []) :
    Replace s old new = String.mk (replaceFrom old.toList new.toList s.toList 0) := by
  rw [Replace, if_neg h]

/-! The map assignment: with keys that are found again, the `range` loop of Go
rewrites the entries in place, as `traverseEntries` does; with the key NaN
every assignment creates an entry. -/

theorem mapAssign_nan : ∀ (obj : List (MapKey × Node)) (value : Node),
    mapAssign obj MapKey.nan value = obj ++ [(MapKey.nan, value)]
  | [], _ => rfl
  | (k, v) :: rest, value => by
    have hk : k.equals MapKey.nan = false := by cases k <;> rfl
    rw [mapAssign, hk, mapAssign_nan rest value]
    rfl

theorem mapAssign_found (k : Key) (v v' : Node) (rest : List (Key × Node)) :
    ∀ done : List (Key × Node), k ∉ done.map Prod.fst →
    mapAssign (asMapEntries (done ++ (k, v) :: rest)) (MapKey.key k) v' =
      asMapEntries (done ++ (k, v') :: rest)
  | [], _ => by
    simp [asMapEntries, mapAssign, MapKey.equals]
  | (k0, v0) :: done, h => by
    have hne : k0 ≠ k := fun heq => h (by simp [heq])
    have hrest : k ∉ done.map Prod.fst := fun hm => h (by simp at hm ⊢; exact Or.inr hm)
    have ih := mapAssign_found k v v' rest done hrest
    simp only [asMapEntries, List.cons_append, List.map_cons, mapAssign, MapKey.equals,
      decide_eq_true_eq, if_neg hne] at ih ⊢
    exact congrArg (fun l => (MapKey.key k0, v0) :: l) ih

/-- On a Go map whose keys are all found again, the `range` loop that produces
every entry once computes what `traverseEntries` computes: `done` are the
entries already visited, `es` the entries still to come. -/
theorem rangeLoop_eq_traverseEntries (sh : Shell) :
    ∀ (es done : List (Key × Node)) (tr : List Event),
    ((done ++ es).map Prod.fst).Nodup →
    rangeLoop sh tr (asMapEntries (done ++ es)) (asMapEntries es) =
      match traverseEntries sh tr es with
      | (.error err, tr') => (.error err, tr')
      | (.ok es', tr') => (.ok (asMapEntries (done ++ es')), tr')
  | [], done, tr, _ => by
    rw [traverseEntries]
    rfl
  | (k, v) :: rest, done, tr, h => by
    have hk : k ∉ done.map Prod.fst := by
      intro hm
      rw [List.map_append, List.map_cons] at h
      exact (List.nodup_append.mp h).2.2 hm (List.mem_cons_self _ _)
    have hnext : (((done ++ [(k, v)]) ++ rest).map Prod.fst).Nodup := by
      simpa using h
    have hrw : asMapEntries ((k, v) :: rest) = (MapKey.key k, v) :: asMapEntries rest := rfl
    rw [traverseEntries, hrw, rangeLoop, rangeBody]
    cases hres : TraverseStructureAndProcessShellOperators sh tr v with
    | mk res tr1 =>
      obtain ⟨v', err⟩ := res
      cases err with
      | some e => rfl
      | none =>
        dsimp only
        rw [mapAssign_found k v v' rest done hk]
        have hnext' : (((done ++ [(k, v')]) ++ rest).map Prod.fst).Nodup := by
          simpa using h
        have ih := rangeLoop_eq_traverseEntries sh rest (done ++ [(k, v')]) tr1 hnext'
        have happ : done ++ (k, v') :: rest = (done ++ [(k, v')]) ++ rest := by simp
        rw [happ, ih]
        cases traverseEntries sh tr1 rest with
        | mk r tr2 =>
          cases r with
          | error e => rfl
          | ok rest' =>
            dsimp only
            rw [List.append_assoc]
            rfl

/-! ## The call discipline: lemmas -/

theorem AllOk.nil : AllOk [] := by
  intro c hc
  cases hc

theorem AllOk.append {l1 l2 : List Event} (h1 : AllOk l1) (h2 : AllOk l2) :
    AllOk (l1 ++ l2) := by
  intro c hc
  rcases List.mem_append.mp hc with h | h
  · exact h1 c h
  · exact h2 c h

theorem TraceOk.refl (tr : List Event) : TraceOk tr tr false := by
  refine ⟨[], by simp, ?_, ?_⟩
  · intro _
    exact AllOk.nil
  · intro h
    cases h

theorem TraceOk.step (tr : List Event) (c : Event) : TraceOk tr (tr ++ [c]) c.failed := by
  refine ⟨[c], rfl, ?_, ?_⟩
  · intro h c' hc'
    rw [List.mem_singleton] at hc'
    rw [hc', h]
  · intro h
    exact ⟨[], c, rfl, AllOk.nil, h⟩

theorem TraceOk.trans {a b c : List Event} {f : Bool} (h1 : TraceOk a b false)
    (h2 : TraceOk b c f) : TraceOk a c f := by
  obtain ⟨l1, rfl, ok1, _⟩ := h1
  obtain ⟨l2, rfl, ok2, fail2⟩ := h2
  refine ⟨l1 ++ l2, by simp, ?_, ?_⟩
  · intro hf
    exact AllOk.append (ok1 rfl) (ok2 hf)
  · intro hf
    obtain ⟨init, last, rfl, hinit, hlast⟩ := fail2 hf
    exact ⟨l1 ++ init, last, by simp, AllOk.append (ok1 rfl) hinit, hlast⟩

theorem processMatches_trace (sh : Shell) : ∀ (ms : List Submatch) (s : String)
    (tr : List Event),
    TraceOk tr (processMatches sh ms s tr).2 (processMatches sh ms s tr).1.2.isSome
  | [], s, tr => by
    rw [processMatches]
    exact TraceOk.refl tr
  | m :: ms, s, tr => by
    rw [processMatches]
    cases sh tr m.cmd with
    | error e => exact TraceOk.step tr (.shell m.cmd false)
    | ok out =>
      exact TraceOk.trans (TraceOk.step tr (.shell m.cmd true)) (processMatches_trace sh ms _ _)

/-! Templating keeps the call discipline: every command it runs succeeds,
except that a failed command is the last one run and makes it fail. -/

mutual
theorem traverse_trace (sh : Shell) : ∀ (t : Node) (tr : List Event),
    TraceOk tr (TraverseStructureAndProcessShellOperators sh tr t).2
      (TraverseStructureAndProcessShellOperators sh tr t).1.2.isSome
  | .mapping es, tr => by
    have ih := entries_trace sh es tr
    rw [TraverseStructureAndProcessShellOperators]
    cases hres : traverseEntries sh tr es with
    | mk r tr' =>
      rw [hres] at ih
      cases r with
      | error e => exact ih
      | ok es' => exact ih
  | .sequence xs, tr => by
    have ih := items_trace sh xs tr
    rw [TraverseStructureAndProcessShellOperators]
    cases hres : traverseItems sh tr xs with
    | mk r tr' =>
      rw [hres] at ih
      cases r with
      | error e => exact ih
      | ok xs' => exact ih
  | .str s, tr => by
    have ih := processMatches_trace sh (FindAllStringSubmatch shellRegexp s) s tr
    rw [TraverseStructureAndProcessShellOperators]
    cases hres : processShellOperator sh tr s with
    | mk r tr' =>
      obtain ⟨s', err⟩ := r
      rw [processShellOperator] at hres
      rw [hres] at ih
      cases err with
      | some e => exact ih
      | none => exact ih
  | .prim p, tr => by
    rw [TraverseStructureAndProcessShellOperators]
    exact TraceOk.refl tr
  | .null, tr => by
    rw [TraverseStructureAndProcessShellOperators]
    exact TraceOk.refl tr
theorem entries_trace (sh : Shell) : ∀ (es : List (Key × Node)) (tr : List Event),
    TraceOk tr (traverseEntries sh tr es).2 (!(traverseEntries sh tr es).1.toBool)
  | [], tr => by
    rw [traverseEntries]
    exact TraceOk.refl tr
  | (k, v) :: rest, tr => by
    have ihv := traverse_trace sh v tr
    rw [traverseEntries]
    cases hres : TraverseStructureAndProcessShellOperators sh tr v with
    | mk r tr' =>
      obtain ⟨v', err⟩ := r
      rw [hres] at ihv
      cases err with
      | some e => exact ihv
      | none =>
        have ihr := entries_trace sh rest tr'
        simp only []
        cases hrest : traverseEntries sh tr' rest with
        | mk r' tr'' =>
          rw [hrest] at ihr
          cases r' with
          | error e => exact TraceOk.trans ihv ihr
          | ok rest' => exact TraceOk.trans ihv ihr
theorem items_trace (sh : Shell) : ∀ (xs : List Node) (tr : List Event),
    TraceOk tr (traverseItems sh tr xs).2 (!(traverseItems sh tr xs).1.toBool)
  | [], tr => by
    rw [traverseItems]
    exact TraceOk.refl tr
  | v :: rest, tr => by
    have ihv := traverse_trace sh v tr
    rw [traverseItems]
    cases hres : TraverseStructureAndProcessShellOperators sh tr v with
    | mk r tr' =>
      obtain ⟨v', err⟩ := r
      rw [hres] at ihv
      cases err with
      | some e => exact ihv
      | none =>
        have ihr := items_trace sh rest tr'
        simp only []
        cases hrest : traverseItems sh tr' rest with
        | mk r' tr'' =>
          rw [hrest] at ihr
          cases r' with
          | error e => exact TraceOk.trans ihv ihr
          | ok rest' => exact TraceOk.trans ihv ihr
end

theorem deployRelease_trace (env : DeployEnv) (tr : List Event) (r : Release) :
    TraceOk tr (deployRelease env tr r).2 (deployRelease env tr r).1.isSome := by
  have ht := traverse_trace env.sh r.Overrides tr
  unfold deployRelease
  cases hres : TraverseStructureAndProcessShellOperators env.sh tr r.Overrides with
  | mk res tr1 =>
    obtain ⟨ov, err⟩ := res
    rw [hres] at ht
    cases err with
    | some e => exact ht
    | none =>
      simp only []
      cases env.processTask tr1 ("Before Chart " ++ r.ChartName) r.Before with
      | some e => exact TraceOk.trans ht (TraceOk.step _ (.task _ _ false))
      | none =>
        have h2 := TraceOk.trans ht
          (TraceOk.step tr1 (.task ("Before Chart " ++ r.ChartName) r.Before true))
        simp only []
        cases env.Marshal ov with
        | error e => exact TraceOk.trans h2 (TraceOk.step _ (.marshal false))
        | ok data =>
          have h3 := TraceOk.trans h2 (TraceOk.step _ (.marshal true))
          simp only []
          cases env.DeployHelmRelease _ r.ChartName r.ChartNamespace r.ChartLocation
            env.timeoutInMin data with
          | some e => exact TraceOk.trans h3 (TraceOk.step _ (.deploy _ _ _ _ _ false))
          | none =>
            have h4 := TraceOk.trans h3 (TraceOk.step _
              (.deploy r.ChartName r.ChartNamespace r.ChartLocation env.timeoutInMin data true))
            simp only []
            cases env.RunHelmBinary _ ["get", "notes", r.ChartName] with
            | error e => exact TraceOk.trans h4 (TraceOk.step _ (.helm _ false))
            | ok notes =>
              have h5 := TraceOk.trans h4
                (TraceOk.step _ (.helm ["get", "notes", r.ChartName] true))
              simp only []
              generalize (match notes with
                | some n => env.Sprintf r.ChartName r.ChartNamespace ++ "\n\n" ++ n
                | none => env.Sprintf r.ChartName r.ChartNamespace) = message
              have h6 := TraceOk.trans h5 (TraceOk.step _ (.status "Upgrade" message))
              cases env.processTask _ ("After Chart " ++ r.ChartName) r.After with
              | some e => exact TraceOk.trans h6 (TraceOk.step _ (.task _ _ false))
              | none => exact TraceOk.trans h6 (TraceOk.step _ (.task _ _ true))

theorem deployReleases_trace (env : DeployEnv) : ∀ (rs : List Release) (tr : List Event),
    TraceOk tr (deployReleases env tr rs).2 (deployReleases env tr rs).1.isSome
  | [], tr => by
    rw [deployReleases]
    exact TraceOk.refl tr
  | r :: rest, tr => by
    have hr := deployRelease_trace env tr r
    rw [deployReleases]
    cases hres : deployRelease env tr r with
    | mk res tr' =>
      rw [hres] at hr
      cases res with
      | some e => exact hr
      | none => exact TraceOk.trans hr (deployReleases_trace env rest tr')

theorem deployReleases_split (env : DeployEnv) (r : Release) (post : List Release) :
    ∀ (pre : List Release) (tr t_r : List Event),
    deployReleases env tr pre = (none, t_r) →
    deployReleases env tr (pre ++ r :: post) =
      match deployRelease env t_r r with
      | (some err, t) => (some err, t)
      | (none, t) => deployReleases env t post
  | [], tr, t_r, h => by
    rw [deployReleases] at h
    cases h
    rw [List.nil_append, deployReleases]
  | p :: pre, tr, t_r, h => by
    rw [deployReleases] at h
    rw [List.cons_append, deployReleases]
    cases hp : deployRelease env tr p with
    | mk res tr' =>
      rw [hp] at h
      cases res with
      | some e => simp at h
      | none => exact deployReleases_split env r post pre tr' t_r h

theorem deployConfig_abort (env : DeployEnv) (tr : List Event) (cfg : Config)
    (pre : List Release) (r : Release) (post : List Release) (t_r t_e : List Event)
    (e : ErrorWithMsg)
    (hsplit : cfg.Releases = pre ++ r :: post)
    (hpre : env.processTask tr "Predeployment Steps" cfg.Before = none)
    (hearlier : deployReleases env (tr ++ [.task "Predeployment Steps" cfg.Before true]) pre =
      (none, t_r))
    (hfail : deployRelease env t_r r = (some e, t_e)) :
    deployConfig env tr cfg = (some e, t_e) := by
  unfold deployConfig
  rw [hpre]
  simp only []
  rw [hsplit, deployReleases_split env r post pre _ t_r hearlier, hfail]

theorem DeployViaHavenerConfig_parsed (env : DeployEnv) (tr : List Event)
    (havenerConfig cfgdata : String) (cfg : Config)
    (hread : env.ReadFile tr havenerConfig = .ok cfgdata)
    (hparse : env.Unmarshal cfgdata = .ok cfg) :
    DeployViaHavenerConfig env tr havenerConfig =
      deployConfig env (tr ++ [.readFile havenerConfig true]) cfg := by
  unfold DeployViaHavenerConfig
  rw [hread]
  simp only [hparse]

/-! ## Templating: the claims -/

/-- Shape preservation on the trees of the model, whose mapping keys are all
found again by `obj[key] = ...`: whenever
`TraverseStructureAndProcessShellOperators` succeeds, the returned tree has the
shape of the input: every mapping keeps its keys, every sequence its length and
order, every non-string scalar its value; a string leaf becomes a successful
result of `processShellOperator` on it, and a `nil` leaf becomes an empty
mapping. -/
theorem traverse_shape_of_success (sh : Shell) (tr : List Event) (t : Node)
    (h : (TraverseStructureAndProcessShellOperators sh tr t).1.2 = none) :
    SameShape sh t (TraverseStructureAndProcessShellOperators sh tr t).1.1 ∧
    (∀ es, t = .mapping es → ∃ es',
      (TraverseStructureAndProcessShellOperators sh tr t).1.1 = .mapping es' ∧
      es'.map Prod.fst = es.map Prod.fst) ∧
    (∀ xs, t = .sequence xs → ∃ xs',
      (TraverseStructureAndProcessShellOperators sh tr t).1.1 = .sequence xs' ∧
      xs'.length = xs.length) := by
  have hshape := traverse_shape_aux sh t tr h
  refine ⟨hshape, fun es ht => ?_, fun xs ht => ?_⟩
  · subst ht
    generalize (TraverseStructureAndProcessShellOperators sh tr (.mapping es)).1.1 = u
      at hshape
    cases hshape with
    | mapping hes => exact ⟨_, rfl, SameShapeEntries.keys_eq hes⟩
  · subst ht
    generalize (TraverseStructureAndProcessShellOperators sh tr (.sequence xs)).1.1 = u
      at hshape
    cases hshape with
    | sequence hxs => exact ⟨_, rfl, SameShapeItems.length_eq hxs⟩

/-- C1, evaluated on the code: on the map with the single entry
NaN: `(( shell echo hi ))`, with `echo hi` printing `hi`, the iteration of the
`range` loop for that entry runs the command and then assigns `obj[NaN]`,
which creates a second entry and leaves the first one as it was: the map now
has two entries and still holds the string leaf with its shell expression. If
the loop goes on to produce the entry just created, a third entry appears.
An assignment to the key NaN always appends an entry. -/
theorem nan_key_leaf_left_untemplated :
    rangeBody echoShell [] [(MapKey.nan, Node.str "(( shell echo hi ))")]
        (MapKey.nan, Node.str "(( shell echo hi ))") =
      (.ok [(MapKey.nan, Node.str "(( shell echo hi ))"), (MapKey.nan, Node.str "hi")],
        [.shell "echo hi" true]) ∧
    rangeLoop echoShell [] [(MapKey.nan, Node.str "(( shell echo hi ))")]
        [(MapKey.nan, Node.str "(( shell echo hi ))"), (MapKey.nan, Node.str "hi")] =
      (.ok [(MapKey.nan, Node.str "(( shell echo hi ))"), (MapKey.nan, Node.str "hi"),
          (MapKey.nan, Node.str "hi")],
        [.shell "echo hi" true]) ∧
    (∀ (obj : List (MapKey × Node)) (value : Node),
      mapAssign obj MapKey.nan value = obj ++ [(MapKey.nan, value)]) := by
  have hp : processShellOperator echoShell [] "(( shell echo hi ))" =
      (("hi", none), [.shell "echo hi" true]) := by decide!
  have hq : processShellOperator echoShell [.shell "echo hi" true] "hi" =
      (("hi", none), [.shell "echo hi" true]) := by decide!
  have h1 : rangeBody echoShell [] [(MapKey.nan, Node.str "(( shell echo hi ))")]
      (MapKey.nan, Node.str "(( shell echo hi ))") =
      (.ok [(MapKey.nan, Node.str "(( shell echo hi ))"), (MapKey.nan, Node.str "hi")],
        [.shell "echo hi" true]) := by
    rw [rangeBody, TraverseStructureAndProcessShellOperators, hp]
    dsimp only
    rw [mapAssign_nan]
    rfl
  refine ⟨h1, ?_, mapAssign_nan⟩
  rw [rangeLoop, h1]
  dsimp only
  rw [rangeLoop, rangeBody, TraverseStructureAndProcessShellOperators, hq]
  dsimp only
  rw [mapAssign_nan, rangeLoop]
  rfl

/-- C2 as stated fails: with `echo hi` printing `hi`, the text
`((shell echo hi))` has no match, because `\B` does not hold between the word
character `i` and `)`; it is returned unchanged and no command is run. -/
theorem shell_operator_without_space_not_matched :
    (∀ tr, echoShell tr "echo hi" = .ok "hi\n") ∧
    FindAllStringSubmatch shellRegexp "((shell echo hi))" = [] ∧
    processShellOperator echoShell [] "((shell echo hi))" =
      (("((shell echo hi))", none), []) ∧
    processShellOperator echoShell [] "a-((shell echo hi))-b" =
      (("a-((shell echo hi))-b", none), []) ∧
    (processShellOperator echoShell [] "((shell echo hi))").1.1 ≠ "hi" :=
  ⟨fun _ => rfl, by decide!, by decide!, by decide!, by decide!⟩

/-- C2, amended: when `echo hi` exits zero printing `hi` and a newline, the text
`((shell echo hi ))`, with a non-word character before the closing
parentheses, is matched as a whole with `echo hi` captured, and is replaced by
`hi`; embedded in `a-...-b` it gives `a-hi-b`; both without error and running
the command once. The text `((shell echo hi))` is returned unchanged. In any
text, a match is `((`, some text and `))`, and the character right before the
closing parentheses is not a word character. -/
theorem shell_operator_echo_hi (sh : Shell) (tr : List Event)
    (h : ∀ tr, sh tr "echo hi" = .ok "hi\n") :
    FindAllStringSubmatch shellRegexp "((shell echo hi ))" =
      [{ full := "((shell echo hi ))", cmd := "echo hi" }] ∧
    processShellOperator sh tr "((shell echo hi ))" =
      (("hi", none), tr ++ [.shell "echo hi" true]) ∧
    processShellOperator sh tr "a-((shell echo hi ))-b" =
      (("a-hi-b", none), tr ++ [.shell "echo hi" true]) ∧
    processShellOperator sh tr "((shell echo hi))" = (("((shell echo hi))", none), tr) ∧
    (∀ (s : String) (m : Submatch), m ∈ FindAllStringSubmatch shellRegexp s →
      ∃ cs, m.full = String.mk ('(' :: '(' :: (cs ++ [')', ')'])) ∧
        isWordAt (lastOr (some '(') cs) = false) := by
  have m1 : FindAllStringSubmatch shellRegexp "((shell echo hi ))" =
      [{ full := "((shell echo hi ))", cmd := "echo hi" }] := by decide!
  have m2 : FindAllStringSubmatch shellRegexp "a-((shell echo hi ))-b" =
      [{ full := "((shell echo hi ))", cmd := "echo hi" }] := by decide!
  have m3 : FindAllStringSubmatch shellRegexp "((shell echo hi))" = [] := by decide!
  have r1 : Replace "((shell echo hi ))" "((shell echo hi ))" (TrimSpace "hi\n") = "hi" := by
    decide!
  have r2 : Replace "a-((shell echo hi ))-b" "((shell echo hi ))" (TrimSpace "hi\n") =
      "a-hi-b" := by decide!
  refine ⟨m1, ?_, ?_, processShellOperator_no_match sh tr _ m3, shell_match_shape⟩
  · rw [processShellOperator, m1, processMatches, h tr]
    simp only [r1, processMatches]
  · rw [processShellOperator, m2, processMatches, h tr]
    simp only [r2, processMatches]

theorem shell_operator_echo_hi_witness :
    (∀ tr, echoShell tr "echo hi" = .ok "hi\n") ∧
    processShellOperator echoShell [] "a-((shell echo hi ))-b" =
      (("a-hi-b", none), [] ++ [.shell "echo hi" true]) :=
  ⟨fun _ => rfl, (shell_operator_echo_hi echoShell [] (fun _ => rfl)).2.2.1⟩

/-- C3 as stated fails: the tree `nil` has no string leaf at all, and templating
returns an empty mapping, which is not `nil`. -/
theorem traverse_null_not_equal :
    Node.null.strings = [] ∧
    (TraverseStructureAndProcessShellOperators echoShell [] Node.null).1 =
      (Node.mapping [], none) ∧
    (TraverseStructureAndProcessShellOperators echoShell [] Node.null).1.1 ≠ Node.null := by
  refine ⟨by rw [Node.strings], by rw [TraverseStructureAndProcessShellOperators], ?_⟩
  rw [TraverseStructureAndProcessShellOperators]
  intro h
  cases h

/-- C3, amended: for a tree none of whose mappings has the key NaN (every
tree of the model) and none of whose string leaves has a match of the
shell-expression pattern, templating succeeds, runs no command, and returns the
tree with every `nil` leaf replaced by an empty mapping; the result equals the
input when the input has no `nil` leaf. At a leaf, `processShellOperator`
returns a string without match unchanged, without error and without running a
command. -/
theorem traverse_without_shell_expression (sh : Shell) (tr : List Event) (t : Node)
    (h : ∀ s ∈ t.strings, FindAllStringSubmatch shellRegexp s = []) :
    TraverseStructureAndProcessShellOperators sh tr t = ((t.nullToMapping, none), tr) ∧
    (t.hasNull = false →
      TraverseStructureAndProcessShellOperators sh tr t = ((t, none), tr)) ∧
    (∀ s ∈ t.strings, processShellOperator sh tr s = ((s, none), tr)) := by
  refine ⟨traverse_no_match_aux sh t tr h, fun hn => ?_, fun s hs => ?_⟩
  · rw [traverse_no_match_aux sh t tr h, nullToMapping_of_no_null t hn]
  · exact processShellOperator_no_match sh tr s (h s hs)

theorem traverse_without_shell_expression_witness :
    (∀ s ∈ plainTree.strings, FindAllStringSubmatch shellRegexp s = []) ∧
    TraverseStructureAndProcessShellOperators echoShell [] plainTree =
      ((plainTree, none), []) := by
  have hs : ∀ s ∈ plainTree.strings, FindAllStringSubmatch shellRegexp s = [] := by
    intro s hs
    have : plainTree.strings = ["plain"] := by
      simp [plainTree, Node.strings, entriesStrings, itemsStrings]
    rw [this, List.mem_singleton] at hs
    subst hs
    decide!
  refine ⟨hs, (traverse_without_shell_expression echoShell [] plainTree hs).2.1 ?_⟩
  simp [plainTree, Node.hasNull, entriesHaveNull, itemsHaveNull]

/-- C4: if a tree has, at any depth, a string leaf with a matched shell
expression whose command exits non-zero, then templating returns an error
together with `nil`, never a tree, and the failed command is the last one it
runs; and `processShellOperator` on that leaf returns the empty string with an
error whose message is built from a matched command on which the subshell
failed. -/
theorem traverse_fails_without_tree (sh : Shell) (tr : List Event) (t : Node) (s : String)
    (hs : s ∈ t.strings) (hf : FailingLeaf sh s) :
    (∃ err, (TraverseStructureAndProcessShellOperators sh tr t).1 = (Node.null, some err)) ∧
    (∃ calls, (TraverseStructureAndProcessShellOperators sh tr t).2 = tr ++ calls ∧
      FailsLast calls) ∧
    (∃ m ∈ FindAllStringSubmatch shellRegexp s, ∃ e tr', sh tr' m.cmd = .error e ∧
      (processShellOperator sh tr s).1 =
        ("", some ("failed to run command: " ++ m.cmd ++ "\nerror message: " ++ e))) := by
  obtain ⟨err, tr', h⟩ := traverse_fails_aux sh t tr ⟨s, hs, hf⟩
  refine ⟨⟨err, by rw [h]⟩, ?_, ?_⟩
  · obtain ⟨calls, hcalls, _, hfail⟩ := traverse_trace sh t tr
    refine ⟨calls, hcalls, hfail ?_⟩
    rw [h]
    rfl
  · obtain ⟨m, hm, e, tr', hsh, h⟩ := processShellOperator_fails sh s tr hf
    exact ⟨m, hm, e, tr', hsh, by rw [h]; rfl⟩

theorem traverse_fails_without_tree_witness :
    "x (( shell false )) y" ∈ failingTree.strings ∧
    FailingLeaf echoShell "x (( shell false )) y" ∧
    ∃ err, (TraverseStructureAndProcessShellOperators echoShell [] failingTree).1 =
      (Node.null, some err) := by
  have hs : "x (( shell false )) y" ∈ failingTree.strings := by
    simp [failingTree, Node.strings, entriesStrings, itemsStrings]
  have hf : FailingLeaf echoShell "x (( shell false )) y" :=
    ⟨{ full := "(( shell false ))", cmd := "false" }, by decide!,
      fun _ => ⟨"exit status 1", rfl⟩⟩
  exact ⟨hs, hf, (traverse_fails_without_tree echoShell [] failingTree _ hs hf).1⟩

/-- C5 as stated fails, in two ways. In `(( shell a ))(( shell b ))` with `a`
printing the text `(( shell b ))` and `b` printing `B`, substituting each match
by the output of its own command gives `(( shell b ))B`, but the code replaces
the second match also inside the output of the first and returns `BB`. In
`(( shell a )) (( shell x (( shell a ))` the matches are `(( shell a ))` and
`(( shell x (( shell a ))`; with `a` printing `A` and the other command `X`,
the specification gives `A X`, but the code first replaces both occurrences of
the first match, after which the second match no longer occurs: it returns
`A (( shell x A` and drops the output of the second command. -/
theorem shell_operator_not_simultaneous :
    (FindAllStringSubmatch shellRegexp "(( shell a ))(( shell b ))" =
      [{ full := "(( shell a ))", cmd := "a" }, { full := "(( shell b ))", cmd := "b" }] ∧
    (∀ tr cmd, quotingShell tr cmd = .ok (quotingOut cmd)) ∧
    specProcessShellOperator quotingOut "(( shell a ))(( shell b ))" = "(( shell b ))B" ∧
    processShellOperator quotingShell [] "(( shell a ))(( shell b ))" =
      (("BB", none), [.shell "a" true, .shell "b" true]) ∧
    (processShellOperator quotingShell [] "(( shell a ))(( shell b ))").1.1 ≠
      specProcessShellOperator quotingOut "(( shell a ))(( shell b ))") ∧
    (FindAllStringSubmatch shellRegexp "(( shell a )) (( shell x (( shell a ))" =
      [{ full := "(( shell a ))", cmd := "a" },
       { full := "(( shell x (( shell a ))", cmd := "x (( shell a" }] ∧
    (∀ tr cmd, letterShell tr cmd = .ok (letterOut cmd)) ∧
    specProcessShellOperator letterOut "(( shell a )) (( shell x (( shell a ))" = "A X" ∧
    processShellOperator letterShell [] "(( shell a )) (( shell x (( shell a ))" =
      (("A (( shell x A", none), [.shell "a" true, .shell "x (( shell a" true]) ∧
    (processShellOperator letterShell [] "(( shell a )) (( shell x (( shell a ))").1.1 ≠
      specProcessShellOperator letterOut "(( shell a )) (( shell x (( shell a ))") := by
  refine ⟨⟨by decide!, fun tr cmd => ?_, by decide!, by decide!, by decide!⟩,
    ⟨by decide!, fun tr cmd => ?_, by decide!, by decide!, by decide!⟩⟩
  · unfold quotingShell quotingOut
    split <;> rfl
  · unfold letterShell letterOut
    split <;> rfl

/-- C5, amended: with the matches found on the original string and a
deterministic subshell under which all their commands succeed, the result of
`processShellOperator` is obtained by taking the matches in order and replacing,
for each, every occurrence of its matched substring in the text as rewritten so
far by the trimmed output of its command; every command is run once per match,
in match order, and no error is returned. When the string has a single match,
this is the string with every occurrence of the matched substring replaced by
the trimmed output of its command. -/
theorem shell_operator_sequential (sh : Shell) (out : String → String) (tr : List Event)
    (s : String)
    (h : ∀ m ∈ FindAllStringSubmatch shellRegexp s, ∀ tr : List Event,
      sh tr m.cmd = .ok (out m.cmd)) :
    processShellOperator sh tr s =
      (((FindAllStringSubmatch shellRegexp s).foldl
          (fun acc m => Replace acc m.full (TrimSpace (out m.cmd))) s, none),
        tr ++ (FindAllStringSubmatch shellRegexp s).map (fun m => Event.shell m.cmd true)) ∧
    (∀ m, FindAllStringSubmatch shellRegexp s = [m] →
      (processShellOperator sh tr s).1 = (specProcessShellOperator out s, none)) := by
  have hseq := processMatches_all_succeed sh out _ s tr h
  refine ⟨hseq, fun m hm => ?_⟩
  rw [processShellOperator, hseq, specProcessShellOperator, hm]
  obtain ⟨cs, hcs, _⟩ := shell_match_shape s m (by rw [hm]; exact List.mem_singleton.mpr rfl)
  have hne : m.full.toList ≠ [] := by
    rw [hcs]
    intro hnil
    cases hnil
  simp only [List.foldl, List.map]
  rw [Replace_nonempty _ _ _ hne, substituteAll_single]

theorem shell_operator_sequential_witness :
    (∀ m ∈ FindAllStringSubmatch shellRegexp "(( shell a ))-(( shell b ))-(( shell a ))",
      ∀ tr : List Event, letterShell tr m.cmd = .ok (letterOut m.cmd)) ∧
    (processShellOperator letterShell [] "(( shell a ))-(( shell b ))-(( shell a ))").1 =
      ("A-X-A", none) := by
  have h : ∀ m ∈ FindAllStringSubmatch shellRegexp "(( shell a ))-(( shell b ))-(( shell a ))",
      ∀ tr : List Event, letterShell tr m.cmd = .ok (letterOut m.cmd) := by
    intro m _ tr
    unfold letterShell letterOut
    split <;> rfl
  refine ⟨h, ?_⟩
  rw [(shell_operator_sequential letterShell letterOut [] _ h).1]
  decide!

/-! ## Deploy: the claims -/

/-- C9: in `DeployViaHavenerConfig`, once the run has reached release `r` (the
configuration was read, the global pre-hooks and all earlier releases
succeeded), each failure of a step of `r` makes the function return the
corresponding error at once, and the calls made end with the failed step: no
call for a later release and no global post-hook follows. The steps are:
templating the overrides (some matched shell command fails, or the traversal
returns an error), the release's pre-hooks, serialising the templated
overrides, the materialization call, and the release's post-hooks. -/
theorem deploy_stops_at_failed_release (env : DeployEnv) (tr : List Event)
    (havenerConfig cfgdata : String) (cfg : Config)
    (pre : List Release) (r : Release) (post : List Release) (t_r : List Event)
    (hread : env.ReadFile tr havenerConfig = .ok cfgdata)
    (hparse : env.Unmarshal cfgdata = .ok cfg)
    (hsplit : cfg.Releases = pre ++ r :: post)
    (hpre : env.processTask (tr ++ [.readFile havenerConfig true]) "Predeployment Steps"
      cfg.Before = none)
    (hearlier : deployReleases env
      (tr ++ [.readFile havenerConfig true] ++ [.task "Predeployment Steps" cfg.Before true])
      pre = (none, t_r)) :
    (∀ s, s ∈ r.Overrides.strings → FailingLeaf env.sh s →
      ∃ err calls,
        TraverseStructureAndProcessShellOperators env.sh t_r r.Overrides =
          ((Node.null, some err), t_r ++ calls) ∧
        FailsLast calls ∧
        DeployViaHavenerConfig env tr havenerConfig =
          (some ⟨"failed to process overrides section", err⟩, t_r ++ calls)) ∧
    (∀ node err t1,
      TraverseStructureAndProcessShellOperators env.sh t_r r.Overrides =
        ((node, some err), t1) →
      DeployViaHavenerConfig env tr havenerConfig =
        (some ⟨"failed to process overrides section", err⟩, t1)) ∧
    (∀ overrides t1,
      TraverseStructureAndProcessShellOperators env.sh t_r r.Overrides =
        ((overrides, none), t1) →
      (∀ err, env.processTask t1 ("Before Chart " ++ r.ChartName) r.Before = some err →
        DeployViaHavenerConfig env tr havenerConfig =
          (some ⟨"failed to evaluate before release steps", err⟩,
            t1 ++ [.task ("Before Chart " ++ r.ChartName) r.Before false])) ∧
      (env.processTask t1 ("Before Chart " ++ r.ChartName) r.Before = none →
        (∀ err, env.Marshal overrides = .error err →
          DeployViaHavenerConfig env tr havenerConfig =
            (some ⟨"failed to marshal overrides structure into bytes", err⟩,
              t1 ++ [.task ("Before Chart " ++ r.ChartName) r.Before true] ++
                [.marshal false])) ∧
        (∀ data, env.Marshal overrides = .ok data →
          (∀ err, env.DeployHelmRelease
              (t1 ++ [.task ("Before Chart " ++ r.ChartName) r.Before true] ++ [.marshal true])
              r.ChartName r.ChartNamespace r.ChartLocation env.timeoutInMin data = some err →
            DeployViaHavenerConfig env tr havenerConfig =
              (some ⟨"failed to deploy via havener configuration", err⟩,
                t1 ++ [.task ("Before Chart " ++ r.ChartName) r.Before true] ++
                  [.marshal true] ++
                  [.deploy r.ChartName r.ChartNamespace r.ChartLocation env.timeoutInMin
                    data false])) ∧
          (env.DeployHelmRelease
              (t1 ++ [.task ("Before Chart " ++ r.ChartName) r.Before true] ++ [.marshal true])
              r.ChartName r.ChartNamespace r.ChartLocation env.timeoutInMin data = none →
            ∀ notes err,
              env.RunHelmBinary
                (t1 ++ [.task ("Before Chart " ++ r.ChartName) r.Before true] ++
                  [.marshal true] ++
                  [.deploy r.ChartName r.ChartNamespace r.ChartLocation env.timeoutInMin
                    data true])
                ["get", "notes", r.ChartName] = .ok notes →
              env.processTask
                (t1 ++ [.task ("Before Chart " ++ r.ChartName) r.Before true] ++
                  [.marshal true] ++
                  [.deploy r.ChartName r.ChartNamespace r.ChartLocation env.timeoutInMin
                    data true] ++
                  [.helm ["get", "notes", r.ChartName] true] ++
                  [.status "Upgrade" (statusText env r notes)])
                ("After Chart " ++ r.ChartName) r.After = some err →
              DeployViaHavenerConfig env tr havenerConfig =
                (some ⟨"failed to evaluate after release steps", err⟩,
                  t1 ++ [.task ("Before Chart " ++ r.ChartName) r.Before true] ++
                    [.marshal true] ++
                    [.deploy r.ChartName r.ChartNamespace r.ChartLocation env.timeoutInMin
                      data true] ++
                    [.helm ["get", "notes", r.ChartName] true] ++
                    [.status "Upgrade" (statusText env r notes)] ++
                    [.task ("After Chart " ++ r.ChartName) r.After false]))))) := by
  rw [DeployViaHavenerConfig_parsed env tr havenerConfig cfgdata cfg hread hparse]
  have habort := fun (e : ErrorWithMsg) (t_e : List Event)
      (h : deployRelease env t_r r = (some e, t_e)) =>
    deployConfig_abort env _ cfg pre r post t_r t_e e hsplit hpre hearlier h
  have hfailT : ∀ node err t1,
      TraverseStructureAndProcessShellOperators env.sh t_r r.Overrides =
        ((node, some err), t1) →
      deployConfig env (tr ++ [.readFile havenerConfig true]) cfg =
        (some ⟨"failed to process overrides section", err⟩, t1) := by
    intro node err t1 ht
    apply habort
    unfold deployRelease
    rw [ht]
  refine ⟨?_, hfailT, ?_⟩
  · intro s hs hf
    obtain ⟨err, t1, ht⟩ := traverse_fails_aux env.sh r.Overrides t_r ⟨s, hs, hf⟩
    obtain ⟨calls, hcalls, _, hfail⟩ := traverse_trace env.sh r.Overrides t_r
    rw [ht] at hcalls hfail
    dsimp only at hcalls
    subst hcalls
    exact ⟨err, calls, ht, hfail rfl, hfailT _ _ _ ht⟩
  · intro overrides t1 ht
    refine ⟨?_, fun hbefore => ⟨?_, fun data hmarshal => ⟨?_, ?_⟩⟩⟩
    · intro err hb
      apply habort
      unfold deployRelease
      rw [ht]
      simp only [hb]
    · intro err hm
      apply habort
      unfold deployRelease
      rw [ht]
      simp only [hbefore, hm]
    · intro err hd
      apply habort
      unfold deployRelease
      rw [ht]
      simp only [hbefore, hmarshal, hd]
    · intro hd notes err hn ha
      apply habort
      unfold deployRelease
      rw [ht]
      cases notes with
      | none =>
        simp only [statusText] at ha
        simp only [hbefore, hmarshal, hd, hn, ha, statusText]
      | some text =>
        simp only [statusText] at ha
        simp only [hbefore, hmarshal, hd, hn, ha, statusText]

theorem deploy_stops_at_failed_release_witness :
    DeployViaHavenerConfig brokenDeployEnv [] "havener.yml" =
      (some ⟨"failed to deploy via havener configuration", "timed out"⟩,
        [Event.readFile "havener.yml" true, .task "Predeployment Steps" [] true] ++
          [.task ("Before Chart " ++ (plainRelease "one").ChartName) [] true] ++
          [.marshal true] ++
          [.deploy "one" "ns" "loc" brokenDeployEnv.timeoutInMin "data" false]) :=
  ((((deploy_stops_at_failed_release brokenDeployEnv [] "havener.yml" "yaml" twoReleases []
    (plainRelease "one") [plainRelease "two"]
    [.readFile "havener.yml" true, .task "Predeployment Steps" [] true]
    rfl rfl rfl rfl rfl).2.2 (.mapping [])
    [.readFile "havener.yml" true, .task "Predeployment Steps" [] true] rfl).2 rfl).2
    "data" rfl).1 "timed out" rfl

/-- C10 as stated fails: with two releases whose materialization succeeds and a
notes lookup that fails, `DeployViaHavenerConfig` returns the error
`failed to get notes of release` right after the first release's lookup; no
status message is printed, the release's post-hooks are not run, and the
second release and the global post-hooks are not reached. -/
theorem notes_failure_is_fatal :
    noNotesEnv.DeployHelmRelease
      [.readFile "havener.yml" true, .task "Predeployment Steps" [] true,
        .task "Before Chart one" [] true, .marshal true]
      "one" "ns" "loc" 40 "data" = none ∧
    DeployViaHavenerConfig noNotesEnv [] "havener.yml" =
      (some ⟨"failed to get notes of release", "exit status 1"⟩,
        [.readFile "havener.yml" true, .task "Predeployment Steps" [] true,
          .task "Before Chart one" [] true, .marshal true,
          .deploy "one" "ns" "loc" 40 "data" true, .helm ["get", "notes", "one"] false]) ∧
    (DeployViaHavenerConfig noNotesEnv [] "havener.yml").1 ≠ none := by
  decide!

/-- C10, amended: in `DeployViaHavenerConfig`, after a release has been
materialized successfully, a failure to fetch that release's notes is fatal:
the function returns the error `failed to get notes of release`, and the failed
lookup is the last call it makes; no status message is printed, the release's
post-hooks are not run, and neither the remaining releases nor the global
post-hooks are reached. -/
theorem notes_failure_aborts (env : DeployEnv) (tr : List Event)
    (havenerConfig cfgdata : String) (cfg : Config)
    (pre : List Release) (r : Release) (post : List Release) (t_r t1 : List Event)
    (overrides : Node) (data err : String)
    (hread : env.ReadFile tr havenerConfig = .ok cfgdata)
    (hparse : env.Unmarshal cfgdata = .ok cfg)
    (hsplit : cfg.Releases = pre ++ r :: post)
    (hpre : env.processTask (tr ++ [.readFile havenerConfig true]) "Predeployment Steps"
      cfg.Before = none)
    (hearlier : deployReleases env
      (tr ++ [.readFile havenerConfig true] ++ [.task "Predeployment Steps" cfg.Before true])
      pre = (none, t_r))
    (htemplate : TraverseStructureAndProcessShellOperators env.sh t_r r.Overrides =
      ((overrides, none), t1))
    (hbefore : env.processTask t1 ("Before Chart " ++ r.ChartName) r.Before = none)
    (hmarshal : env.Marshal overrides = .ok data)
    (hdeploy : env.DeployHelmRelease
      (t1 ++ [.task ("Before Chart " ++ r.ChartName) r.Before true] ++ [.marshal true])
      r.ChartName r.ChartNamespace r.ChartLocation env.timeoutInMin data = none)
    (hnotes : env.RunHelmBinary
      (t1 ++ [.task ("Before Chart " ++ r.ChartName) r.Before true] ++ [.marshal true] ++
        [.deploy r.ChartName r.ChartNamespace r.ChartLocation env.timeoutInMin data true])
      ["get", "notes", r.ChartName] = .error err) :
    DeployViaHavenerConfig env tr havenerConfig =
      (some ⟨"failed to get notes of release", err⟩,
        t1 ++ [.task ("Before Chart " ++ r.ChartName) r.Before true] ++ [.marshal true] ++
          [.deploy r.ChartName r.ChartNamespace r.ChartLocation env.timeoutInMin data true] ++
          [.helm ["get", "notes", r.ChartName] false]) := by
  rw [DeployViaHavenerConfig_parsed env tr havenerConfig cfgdata cfg hread hparse]
  apply deployConfig_abort env _ cfg pre r post t_r _ _ hsplit hpre hearlier
  unfold deployRelease
  rw [htemplate]
  simp only [hbefore, hmarshal, hdeploy, hnotes]

theorem notes_failure_aborts_witness :
    DeployViaHavenerConfig noNotesEnv [] "havener.yml" =
      (some ⟨"failed to get notes of release", "exit status 1"⟩,
        [Event.readFile "havener.yml" true, .task "Predeployment Steps" [] true] ++
          [.task ("Before Chart " ++ (plainRelease "one").ChartName) [] true] ++
          [.marshal true] ++
          [.deploy "one" "ns" "loc" noNotesEnv.timeoutInMin "data" true] ++
          [.helm ["get", "notes", "one"] false]) :=
  notes_failure_aborts noNotesEnv [] "havener.yml" "yaml" twoReleases [] (plainRelease "one")
    [plainRelease "two"]
    [.readFile "havener.yml" true, .task "Predeployment Steps" [] true]
    [.readFile "havener.yml" true, .task "Predeployment Steps" [] true]
    (.mapping []) "data" "exit status 1" rfl rfl rfl rfl rfl rfl rfl rfl rfl rfl

/-! ## Purge: lemmas -/

theorem watchLoop_success_iff (ns : String) (closes : Bool) :
    ∀ (evs : List EventType) (stopped : Bool),
    watchLoop ns stopped closes evs = .returns none ↔
      EventType.Error ∉ evs ∧ (stopped = true ∨ EventType.Deleted ∈ evs ∨ closes = true)
  | [], stopped => by
    rw [watchLoop]
    cases stopped <;> cases closes <;> simp
  | .Deleted :: rest, stopped => by
    rw [watchLoop, watchLoop_success_iff ns closes rest true]
    simp
  | .Error :: rest, stopped => by
    rw [watchLoop]
    simp
  | .Added :: rest, stopped => by
    rw [watchLoop, watchLoop_success_iff ns closes rest stopped]
    simp
  | .Modified :: rest, stopped => by
    rw [watchLoop, watchLoop_success_iff ns closes rest stopped]
    simp

theorem watchLoop_error (ns : String) (closes : Bool) (post : List EventType) :
    ∀ (pre : List EventType) (stopped : Bool), EventType.Error ∉ pre →
    watchLoop ns stopped closes (pre ++ .Error :: post) =
      .returns (some ("failed to delete namespace " ++ ns))
  | [], stopped, _ => by
    rw [List.nil_append, watchLoop]
  | .Deleted :: rest, stopped, h => by
    rw [List.cons_append, watchLoop]
    exact watchLoop_error ns closes post rest true (fun hm => h (List.mem_cons_of_mem _ hm))
  | .Error :: rest, stopped, h => by
    exact absurd (List.mem_cons_self _ _) h
  | .Added :: rest, stopped, h => by
    rw [List.cons_append, watchLoop]
    exact watchLoop_error ns closes post rest stopped (fun hm => h (List.mem_cons_of_mem _ hm))
  | .Modified :: rest, stopped, h => by
    rw [List.cons_append, watchLoop]
    exact watchLoop_error ns closes post rest stopped (fun hm => h (List.mem_cons_of_mem _ hm))

theorem watchLoop_ignores (ns : String) (closes : Bool) :
    ∀ (evs : List EventType) (stopped : Bool),
    watchLoop ns stopped closes evs =
      watchLoop ns stopped closes (evs.filter (fun e => e = .Deleted || e = .Error))
  | [], stopped => rfl
  | .Deleted :: rest, stopped => by
    have : (EventType.Deleted :: rest).filter (fun e => e = .Deleted || e = .Error) =
        .Deleted :: rest.filter (fun e => e = .Deleted || e = .Error) := by simp
    rw [this, watchLoop, watchLoop, watchLoop_ignores ns closes rest true]
  | .Error :: rest, stopped => by
    have : (EventType.Error :: rest).filter (fun e => e = .Deleted || e = .Error) =
        .Error :: rest.filter (fun e => e = .Deleted || e = .Error) := by simp
    rw [this, watchLoop, watchLoop]
  | .Added :: rest, stopped => by
    have : (EventType.Added :: rest).filter (fun e => e = .Deleted || e = .Error) =
        rest.filter (fun e => e = .Deleted || e = .Error) := by simp
    rw [this, watchLoop, watchLoop_ignores ns closes rest stopped]
  | .Modified :: rest, stopped => by
    have : (EventType.Modified :: rest).filter (fun e => e = .Deleted || e = .Error) =
        rest.filter (fun e => e = .Deleted || e = .Error) := by simp
    rw [this, watchLoop, watchLoop_ignores ns closes rest stopped]

theorem PurgeNamespace_eq_watchLoop (env : PurgeEnv) (ns : String) (w : Watch)
    (hget : env.GetNamespace ns = none) (hwatch : env.WatchNamespace ns = .ok w)
    (hdelete : env.DeleteNamespace ns = none) :
    PurgeNamespace env ns = watchLoop ns false w.closes w.events := by
  unfold PurgeNamespace
  rw [hget]
  simp only [hwatch, hdelete]

theorem toBeDeleted_eq_respondedNames (env : PurgeEnv) :
    ∀ names : List String, toBeDeleted env names = respondedNames env names
  | [] => rfl
  | name :: rest => by
    rw [toBeDeleted, respondedNames, List.filterMap_cons]
    cases h : env.ReleaseStatus name with
    | error e =>
      dsimp only
      exact toBeDeleted_eq_respondedNames env rest
    | ok resp =>
      dsimp only
      rw [toBeDeleted_eq_respondedNames env rest]
      rfl

theorem respondedNames_eq_filter (env : PurgeEnv)
    (hecho : ∀ name resp, env.ReleaseStatus name = .ok resp → resp.Name = name) :
    ∀ names : List String,
    respondedNames env names = names.filter (fun name => (env.ReleaseStatus name).toBool)
  | [] => rfl
  | name :: rest => by
    have ih := respondedNames_eq_filter env hecho rest
    rw [respondedNames] at ih ⊢
    rw [List.filterMap_cons]
    cases h : env.ReleaseStatus name with
    | error e =>
      rw [List.filter_cons_of_neg (by rw [h]; simp [Except.toBool])]
      exact ih
    | ok resp =>
      rw [List.filter_cons_of_pos (by rw [h]; rfl)]
      dsimp only
      rw [hecho name resp h, ih]

theorem joinErrors_short : ∀ (n : Nat) (arrivals : List (Option String)),
    arrivals.length < n → joinErrors n arrivals ≠ .returns none
  | 0, _, h => by simp at h
  | n + 1, [], _ => by
    rw [joinErrors]
    intro h
    cases h
  | n + 1, some e :: rest, _ => by
    rw [joinErrors]
    intro h
    cases h
  | n + 1, none :: rest, h => by
    rw [joinErrors]
    exact joinErrors_short n rest (by simpa using h)

theorem sent_length_le : ∀ l : List Outcome, (sent l).length ≤ l.length
  | [] => Nat.le_refl _
  | .returns e :: rest => by
    rw [sent]
    simpa using sent_length_le rest
  | .blocks :: rest => by
    rw [sent]
    exact Nat.le_succ_of_le (sent_length_le rest)

/-- Whatever the cluster answers, as long as the scheduler hands over no more
results than goroutines were started, `PurgeHelmRelease` never returns `nil`:
it returns an error or waits for ever on its result channel. -/
theorem PurgeHelmRelease_never_succeeds (env : PurgeEnv) (helmRelease : String)
    (harrival : ∀ l, (env.arrival l).length ≤ l.length) :
    PurgeHelmRelease env helmRelease ≠ .returns none := by
  unfold PurgeHelmRelease
  cases env.ReleaseStatus helmRelease with
  | error e =>
    intro h
    cases h
  | ok resp =>
    simp only []
    cases PurgeDeploymentsInNamespace env resp.Namespace with
    | some e =>
      intro h
      cases h
    | none =>
      simp only []
      cases PurgeStatefulSetsInNamespace env resp.Namespace with
      | some e =>
        intro h
        cases h
      | none =>
        simp only []
        apply joinErrors_short
        have h1 := sent_length_le (env.arrival
          [PurgeNamespace env resp.Namespace, .returns (env.DeleteRelease helmRelease)])
        have h2 := harrival
          [PurgeNamespace env resp.Namespace, .returns (env.DeleteRelease helmRelease)]
        simp only [List.length_cons, List.length_nil] at h2
        omega

/-! ## Purge: the claims -/

/-- C6, evaluated on the code: in a cluster where the status lookup and the
purges of deployments and stateful sets succeed and both subtasks (namespace
termination, release-record deletion) succeed, two receives would give
success, but `PurgeHelmRelease` runs its join loop four times and waits for
ever on the third receive. -/
theorem purge_release_join_blocks :
    healthyCluster.ReleaseStatus "A" = .ok ⟨"A", "ns-A"⟩ ∧
    PurgeDeploymentsInNamespace healthyCluster "ns-A" = none ∧
    PurgeStatefulSetsInNamespace healthyCluster "ns-A" = none ∧
    PurgeNamespace healthyCluster "ns-A" = .returns none ∧
    healthyCluster.DeleteRelease "A" = none ∧
    joinErrors 2 (sent (healthyCluster.arrival
      [PurgeNamespace healthyCluster "ns-A", .returns (healthyCluster.DeleteRelease "A")])) =
      .returns none ∧
    PurgeHelmRelease healthyCluster "A" = .blocks :=
  ⟨rfl, by decide!, by decide!, by decide!, by decide!, by decide!, by decide!⟩

/-- C7 as stated fails: when the server closes the watch after a `Modified`
event, without any `Deleted` event, `PurgeNamespace` returns success. -/
theorem purge_namespace_success_without_deleted :
    closingWatchCluster.GetNamespace "ns-A" = none ∧
    closingWatchCluster.WatchNamespace "ns-A" = .ok ⟨[.Modified], true⟩ ∧
    closingWatchCluster.DeleteNamespace "ns-A" = none ∧
    EventType.Deleted ∉ [EventType.Modified] ∧
    PurgeNamespace closingWatchCluster "ns-A" = .returns none :=
  ⟨rfl, rfl, rfl, by decide, by decide!⟩

/-- C7, amended: once the namespace delete request is issued, `PurgeNamespace`
returns success exactly when the watch delivers no `Error` event and either
delivers a `Deleted` event (after which the watcher is stopped) or is closed by
the server; it returns a failure as soon as an `Error` event is consumed; and
`Added` and `Modified` events are ignored. -/
theorem purge_namespace_watch (env : PurgeEnv) (ns : String) (w : Watch)
    (hget : env.GetNamespace ns = none) (hwatch : env.WatchNamespace ns = .ok w)
    (hdelete : env.DeleteNamespace ns = none) :
    (PurgeNamespace env ns = .returns none ↔
      EventType.Error ∉ w.events ∧ (EventType.Deleted ∈ w.events ∨ w.closes = true)) ∧
    (∀ pre post, w.events = pre ++ EventType.Error :: post → EventType.Error ∉ pre →
      PurgeNamespace env ns = .returns (some ("failed to delete namespace " ++ ns))) ∧
    PurgeNamespace env ns =
      watchLoop ns false w.closes (w.events.filter (fun e => e = .Deleted || e = .Error)) := by
  rw [PurgeNamespace_eq_watchLoop env ns w hget hwatch hdelete]
  refine ⟨?_, ?_, watchLoop_ignores ns w.closes w.events false⟩
  · rw [watchLoop_success_iff]
    simp
  · intro pre post hev hpre
    rw [hev]
    exact watchLoop_error ns w.closes post pre false hpre

theorem purge_namespace_watch_witness :
    PurgeNamespace healthyCluster "ns-A" = .returns none ↔
      EventType.Error ∉ [EventType.Modified, EventType.Deleted] ∧
        (EventType.Deleted ∈ [EventType.Modified, EventType.Deleted] ∨ false = true) :=
  (purge_namespace_watch healthyCluster "ns-A" ⟨[.Modified, .Deleted], false⟩ rfl rfl rfl).1

/-- C8 as stated fails: the names confirmed and purged are those carried by
the status responses, not the requested ones. With a status service that
answers every query with a response named `X`, the requests `A` and `C` both
succeed, yet the operator is asked about `X, X` and two purge goroutines are
started for `X`, none for `A` or `C`. -/
theorem purge_releases_uses_response_names :
    (["A", "C"].filter (fun name => (renamingCluster.ReleaseStatus name).toBool) =
      ["A", "C"]) ∧
    (PurgeHelmReleases renamingCluster ["A", "C"]).prompt =
      "Are you sure you want to delete the Helm Releases X, X? (yes/no): " ∧
    (PurgeHelmReleases renamingCluster ["A", "C"]).launched = ["X", "X"] ∧
    (PurgeHelmReleases renamingCluster ["A", "C"]).launched ≠ ["A", "C"] :=
  ⟨by decide!, by decide!, by decide!, by decide!⟩

/-- C8, amended: for every list of requested names and every status service,
the releases `PurgeHelmReleases` names in its confirmation question are the
names carried by the status responses of the requests that succeed, in request
order; a request whose query fails contributes nothing and its error is not
returned. After an affirmative answer exactly one purge goroutine is started
for each of these names and for no other, and the call joins exactly these
goroutines; after any other answer none is started and the call succeeds. When
every response carries the name that was asked for, these names are exactly
the requested names whose status query succeeds. -/
theorem purge_releases_filters_existing (env : PurgeEnv) (names : List String) :
    (PurgeHelmReleases env names).prompt =
      "Are you sure you want to delete the Helm Releases " ++
        ", ".intercalate (respondedNames env names) ++ "? (yes/no): " ∧
    (env.PromptUser (PurgeHelmReleases env names).prompt = true →
      (PurgeHelmReleases env names).launched = respondedNames env names ∧
      (PurgeHelmReleases env names).result =
        joinErrors (respondedNames env names).length
          (sent (env.arrival ((respondedNames env names).map (PurgeHelmRelease env))))) ∧
    (env.PromptUser (PurgeHelmReleases env names).prompt = false →
      (PurgeHelmReleases env names).launched = [] ∧
      (PurgeHelmReleases env names).result = .returns none) ∧
    ((∀ name resp, env.ReleaseStatus name = .ok resp → resp.Name = name) →
      respondedNames env names =
        names.filter (fun name => (env.ReleaseStatus name).toBool)) := by
  have hf := toBeDeleted_eq_respondedNames env names
  unfold PurgeHelmReleases
  simp only [hf]
  refine ⟨?_, ?_, ?_, fun hecho => respondedNames_eq_filter env hecho names⟩
  · split <;> rfl
  · intro hp
    split
    · exact ⟨rfl, rfl⟩
    · rename_i hne
      split at hp
      · exact absurd hp hne
      · exact absurd hp hne
  · intro hp
    split
    · rename_i hyes
      split at hp
      · rw [hyes] at hp
        cases hp
      · rw [hyes] at hp
        cases hp
    · exact ⟨rfl, rfl⟩

/-- The purge of `A`, `B`, `C` in a cluster without `B`: the operator is asked
about `A, C`, and purge goroutines are started for `A` and `C` only. -/
theorem purge_releases_example :
    respondedNames healthyCluster ["A", "B", "C"] = ["A", "C"] ∧
    (PurgeHelmReleases healthyCluster ["A", "B", "C"]).prompt =
      "Are you sure you want to delete the Helm Releases A, C? (yes/no): " ∧
    (PurgeHelmReleases healthyCluster ["A", "B", "C"]).launched = ["A", "C"] ∧
    (PurgeHelmReleases healthyCluster ["A", "B", "C"]).result =
      joinErrors 2 (sent [PurgeHelmRelease healthyCluster "A",
        PurgeHelmRelease healthyCluster "C"]) :=
  ⟨by decide!, by decide!, by decide!, by decide!⟩

end Havener
